import Mathlib

/-!
# Verification of the igus Motion Editor motion-control and transport stack

A shallow embedding, in Lean 4, of the parts of the igusMotionEditor
repository that the specification's testable claims are about:

* the extended binary wire protocol (`Source/microcontroller/protocol.h`):
  packet layout and checksum;
* the microcontroller packet decoder and command dispatcher
  (`Source/microcontroller/commands.cpp`);
* the microcontroller persistent store (`Source/microcontroller/mem.cpp`);
* the passthrough INIT-packet matcher of the microcontroller main loop and
  the playback look-ahead arithmetic (`Source/microcontroller/motion.cpp`);
* the host uploader and angle/tick transforms
  (`Source/KeyframePlayerItem.cpp`, `RobotInterface`);
* the host keyframe player build phase (`KeyframePlayer.cpp`);
* the keyframe text serialisation (`Source/Keyframe.cpp`).

Machine integers (`uint8_t`, `uint16_t`, `int32_t`, ...) are embedded as
`Nat`/`Int` with explicit `% 2^w` wraps where the C code can wrap, and
C truncating division is `Int.tdiv`.  `double` arithmetic is embedded over an
arbitrary linear ordered field (instantiated at `ℝ` or `ℚ` in the theorems),
with Qt's `qRound` of a `double` modelled exactly (round half away from
zero).
-/

namespace IgusME

/-! ## Frame codec  (`Source/microcontroller/protocol.h`)

Constants from `protocol.h`: `VERSION = 10`, `NUM_AXES = 8`,
`MAX_KEYFRAMES = 128`, `NT_POSITION_BIAS = 16384`, and the command codes
`CMD_INIT = 0` .. `CMD_MOTION = 10`, `CMD_COUNT = 11`. -/

def VERSION : ℕ := 10
def NUM_AXES : ℕ := 8
def MAX_KEYFRAMES : ℕ := 128
def NT_POSITION_BIAS : ℕ := 16384

def CMD_INIT : ℕ := 0
def CMD_RESET : ℕ := 1
def CMD_CONFIG : ℕ := 2
def CMD_READ_KEYFRAME : ℕ := 3
def CMD_SAVE_KEYFRAME : ℕ := 4
def CMD_EXIT : ℕ := 5
def CMD_COMMIT : ℕ := 6
def CMD_PLAY : ℕ := 7
def CMD_STOP : ℕ := 8
def CMD_FEEDBACK : ℕ := 9
def CMD_MOTION : ℕ := 10
def CMD_COUNT : ℕ := 11

/-- `proto::packetChecksum` (protocol.h:126-137): the 8-bit sum
`version + command + length + Σ payload` accumulated in a `uint8_t`
(hence mod 256), then bitwise complemented (`~x = 255 - x` on a byte). -/
def packetChecksum (command length : ℕ) (payload : List ℕ) : ℕ :=
  255 - ((VERSION + command + length + payload.sum) % 256)

/-- The byte image of a `proto::Packet` / `proto::SimplePacket`
(protocol.h:37-53, 139-187): start `0xFF`, version, command, payload
length, payload, checksum, terminator `0x0D`.  A `SimplePacket` is the
same with empty payload. -/
def encodePacket (command : ℕ) (payload : List ℕ) : List ℕ :=
  0xFF :: VERSION :: command :: payload.length ::
    (payload ++ [packetChecksum command payload.length payload, 0x0D])

/-- The byte image of `proto::SimplePacket<proto::CMD_INIT> initPacket`
(motion.cpp `main`, line 575): `FF 0A 00 00 F5 0D`. -/
def initPacketBytes : List ℕ := encodePacket CMD_INIT []

/-! ## Packet decoder  (`Source/microcontroller/commands.cpp`, `cmd_input`)

`cmd_input` (commands.cpp:162-226) is a seven-state machine over the
globals `parser_state`, `command`, `payloadLength`, `payloadIdx` and the
256-byte `payloadBuffer`.  The buffer is embedded as a total function
`ℕ → ℕ`; the C code only ever reads the first `payloadLength` cells. -/

/-- `enum ParserState` (commands.cpp:20-29). -/
def PS_START : ℕ := 0
def PS_VERSION : ℕ := 1
def PS_COMMAND : ℕ := 2
def PS_LENGTH : ℕ := 3
def PS_PAYLOAD : ℕ := 4
def PS_CHECKSUM : ℕ := 5
def PS_END : ℕ := 6

/-- The decoder globals of commands.cpp:157-160 plus `payloadBuffer`. -/
structure DecState where
  parser_state : ℕ
  command : ℕ
  payloadLength : ℕ
  payloadIdx : ℕ
  payloadBuffer : ℕ → ℕ

/-- The zero function standing for the (irrelevant) initial contents of
`payloadBuffer`. -/
def zeroBuf : ℕ → ℕ := fun _ => 0

/-- The decoder as initialised at program start (commands.cpp:157-160). -/
def decInit : DecState :=
  { parser_state := PS_START, command := 0, payloadLength := 0,
    payloadIdx := 0, payloadBuffer := zeroBuf }

/-- The first `payloadLength` bytes of the payload buffer — what
`handleCommand(command, payloadBuffer, payloadLength)` receives. -/
def decPayload (s : DecState) : List ℕ :=
  (List.range s.payloadLength).map s.payloadBuffer

/-- The checksum recomputed by the `PS_CHECKSUM` case
(commands.cpp:196-207) from the decoder state. -/
def decChecksum (s : DecState) : ℕ :=
  packetChecksum s.command s.payloadLength (decPayload s)

/-- One step of `cmd_input` (commands.cpp:162-226).  Returns the new
state and, when the C function returns `true` (a complete packet,
commands.cpp:213-217), the `(command, length, payload)` triple passed to
`handleCommand`. -/
def cmdInput (s : DecState) (c : ℕ) : DecState × Option (ℕ × ℕ × List ℕ) :=
  if s.parser_state = PS_START then
    ({ s with payloadIdx := 0,
              parser_state := if c = 0xFF then PS_VERSION else PS_START }, none)
  else if s.parser_state = PS_VERSION then
    ({ s with parser_state := if c = VERSION then PS_COMMAND else PS_START }, none)
  else if s.parser_state = PS_COMMAND then
    ({ s with command := c,
              parser_state := if c < CMD_COUNT then PS_LENGTH else PS_START }, none)
  else if s.parser_state = PS_LENGTH then
    ({ s with payloadLength := c,
              parser_state := if c ≠ 0 then PS_PAYLOAD else PS_CHECKSUM }, none)
  else if s.parser_state = PS_PAYLOAD then
    ({ s with payloadBuffer := Function.update s.payloadBuffer s.payloadIdx c,
              payloadIdx := s.payloadIdx + 1,
              parser_state :=
                if s.payloadIdx + 1 = s.payloadLength then PS_CHECKSUM else PS_PAYLOAD },
     none)
  else if s.parser_state = PS_CHECKSUM then
    ({ s with parser_state := if decChecksum s = c then PS_END else PS_START }, none)
  else if s.parser_state = PS_END then
    ({ s with parser_state := PS_START },
     if c = 0x0D then some (s.command, s.payloadLength, decPayload s) else none)
  else
    ({ s with parser_state := PS_START }, none)

/-- Feed a byte list to the decoder, collecting every completed packet in
order (the dispatch loops of commands.cpp:228-246 and motion.cpp call
`cmd_input` byte by byte exactly like this fold). -/
def runDecoder (s : DecState) (bytes : List ℕ) : DecState × List (ℕ × ℕ × List ℕ) :=
  bytes.foldl
    (fun acc c =>
      let step := cmdInput acc.1 c
      (step.1, acc.2 ++ step.2.toList))
    (s, [])

/-! ## Persistent store  (`Source/microcontroller/mem.cpp`) -/

/-- `proto::Config` (protocol.h:82-88); the `uint16_t` fields are
naturals (< 2^16 whenever they came off the wire). -/
structure Config where
  num_keyframes : ℕ
  active_axes : ℕ
  enc_to_mot : List ℕ
  lookahead : ℕ
  deriving DecidableEq, Repr

/-- `proto::Keyframe` (protocol.h:64-69). -/
structure Keyframe where
  duration : ℕ
  ticks : List ℕ
  output_command : ℕ
  deriving DecidableEq, Repr, Inhabited

/-- `mem_init` (mem.cpp:22-42): read the stored config and apply the
validity check — `active_axes == 0xFFFF || num_keyframes >= MAX_KEYFRAMES`
makes the store count as empty and installs the defaults 4 axes /
0 keyframes (the other fields are kept as read). -/
def mem_init (stored : Config) : Config :=
  if stored.active_axes = 0xFFFF ∨ MAX_KEYFRAMES ≤ stored.num_keyframes then
    { stored with active_axes := 4, num_keyframes := 0 }
  else
    stored

/-! ## Device command dispatcher state  (`commands.cpp`, `motion.cpp`, `mem.cpp`)

The device globals touched by the embedded commands: the in-RAM config
`mem_config`, the RAM keyframe buffer `g_buffer` (motion.cpp:32), the
EEPROM images `g_keyframe_memory`/`g_config_memory` (mem.cpp:11-14), and
the flags `g_isPlaying`, `g_shouldStop` (motion.cpp:33-34),
`g_extShouldQuit` (commands.cpp:18). -/
structure DeviceState where
  mem_config : Config
  g_buffer : List Keyframe
  eeprom_keyframes : List Keyframe
  eeprom_config : Config
  g_isPlaying : Bool
  g_shouldStop : Bool
  g_extShouldQuit : Bool
  deriving DecidableEq, Repr

/-- `motion_writeToBuffer` (motion.cpp:108-114): indices at or beyond
`MAX_KEYFRAMES` are silently dropped. -/
def motion_writeToBuffer (s : DeviceState) (index : ℕ) (kf : Keyframe) : DeviceState :=
  if MAX_KEYFRAMES ≤ index then s
  else { s with g_buffer := s.g_buffer.set index kf }

/-- `motion_commit` (motion.cpp:116-121): copy the first
`mem_config.num_keyframes` RAM keyframes and the in-RAM config to the
non-volatile store. -/
def motion_commit (s : DeviceState) : DeviceState :=
  { s with
    eeprom_keyframes :=
      (List.range s.mem_config.num_keyframes).foldl
        (fun e i => e.set i (s.g_buffer.getD i default)) s.eeprom_keyframes,
    eeprom_config := s.mem_config }

/-- Little-endian `uint16_t` from two payload bytes. -/
def u16 (lo hi : ℕ) : ℕ := lo + 256 * hi

/-- The packed `proto::Keyframe` read out of a raw payload:
`duration:u16`, `ticks[8]:u16` little-endian, `output_command:u8`
(19 bytes), as produced by the C pointer cast in `handleCommand`. -/
def decodeKeyframe (b : List ℕ) : Keyframe :=
  { duration := u16 (b.getD 0 0) (b.getD 1 0),
    ticks := (List.range NUM_AXES).map fun i =>
      u16 (b.getD (2 + 2 * i) 0) (b.getD (3 + 2 * i) 0),
    output_command := b.getD 18 0 }

/-- The packed `proto::Config` read out of a raw payload (22 bytes). -/
def decodeConfig (b : List ℕ) : Config :=
  { num_keyframes := u16 (b.getD 0 0) (b.getD 1 0),
    active_axes := u16 (b.getD 2 0) (b.getD 3 0),
    enc_to_mot := (List.range NUM_AXES).map fun i =>
      u16 (b.getD (4 + 2 * i) 0) (b.getD (5 + 2 * i) 0),
    lookahead := u16 (b.getD 20 0) (b.getD 21 0) }

/-- Byte image of a `proto::Keyframe` (for `CMD_READ_KEYFRAME` replies). -/
def encodeKeyframe (kf : Keyframe) : List ℕ :=
  [kf.duration % 256, kf.duration / 256 % 256] ++
    ((List.range NUM_AXES).flatMap fun i =>
      [kf.ticks.getD i 0 % 256, kf.ticks.getD i 0 / 256 % 256]) ++
    [kf.output_command % 256]

/-- Byte image of a `proto::Config` (for `CMD_CONFIG` query replies). -/
def encodeConfig (c : Config) : List ℕ :=
  [c.num_keyframes % 256, c.num_keyframes / 256 % 256,
   c.active_axes % 256, c.active_axes / 256 % 256] ++
    ((List.range NUM_AXES).flatMap fun i =>
      [c.enc_to_mot.getD i 0 % 256, c.enc_to_mot.getD i 0 / 256 % 256]) ++
    [c.lookahead % 256, c.lookahead / 256 % 256]

/-- `sizeof(proto::SaveKeyframe)` = 1 + 19 and `sizeof(proto::Config)` = 22. -/
def sizeofSaveKeyframe : ℕ := 20
def sizeofConfig : ℕ := 22

/-- `handleCommand` (commands.cpp:56-155), for the store-related branches
`CMD_INIT`, `CMD_EXIT`, `CMD_CONFIG`, `CMD_READ_KEYFRAME`,
`CMD_SAVE_KEYFRAME`, `CMD_COMMIT` and `CMD_STOP`.  The payload length
`length` is the list length of `payload`.  Replies are returned as the
byte lists written by `writeAnswer`.  The branches that drive hardware —
`CMD_RESET` (bootloader jump), `CMD_PLAY`/`CMD_MOTION`/`CMD_FEEDBACK`
(sequencer and encoder I/O) — and the GPIO probe
`motion_isInStartPosition()` inside the `CMD_CONFIG` write branch are
outside this embedding; no claim exercises them. -/
def handleCommand (s : DeviceState) (command : ℕ) (payload : List ℕ) :
    DeviceState × List (List ℕ) :=
  if command = CMD_INIT then
    (s, [encodePacket CMD_INIT []])
  else if command = CMD_EXIT then
    ({ s with g_extShouldQuit := true }, [encodePacket CMD_EXIT []])
  else if command = CMD_SAVE_KEYFRAME then
    if payload.length ≠ sizeofSaveKeyframe ∨ s.g_isPlaying then (s, [])
    else
      (motion_writeToBuffer s (payload.getD 0 0) (decodeKeyframe (payload.drop 1)),
       [encodePacket CMD_SAVE_KEYFRAME []])
  else if command = CMD_READ_KEYFRAME then
    if payload.length ≠ 1 then (s, [])
    else
      (s, [encodePacket CMD_READ_KEYFRAME
            (encodeKeyframe (s.eeprom_keyframes.getD (payload.getD 0 0) default))])
  else if command = CMD_CONFIG then
    if s.g_isPlaying then (s, [])
    else if payload.length = sizeofConfig then
      ({ s with mem_config := decodeConfig payload }, [encodePacket CMD_CONFIG []])
    else if payload.length = 0 then
      (s, [encodePacket CMD_CONFIG (encodeConfig s.mem_config)])
    else (s, [])
  else if command = CMD_COMMIT then
    (motion_commit s, [encodePacket CMD_COMMIT []])
  else if command = CMD_STOP then
    ({ s with g_shouldStop := true }, [encodePacket CMD_STOP []])
  else
    (s, [])

/-! ## Passthrough INIT matcher  (`Source/microcontroller/motion.cpp`, `main`)

The passthrough section of `main` (motion.cpp main loop, lines 641-695 of
the combined file): whenever the host-side ring buffer is non-empty, a
fresh local `uint8_t offset = 0` is declared and a `do { ... }
while(com_buf_to_bot.available())` loop drains the buffer.  Each byte is
compared against `initPacket[offset]`; on a match `offset` advances, on a
mismatch the already-matched prefix `initPacket[0..offset)` is replayed
to the RS-485 bus followed by the failing byte, and `offset` restarts at
0.  When `offset` reaches `sizeof(initPacket)` the device flushes the
ring and enters extended mode.  Crucially, `offset` is local to one
drain: it does not survive the ring buffer running empty. -/

/-- The result of draining one burst: bytes forwarded to the RS-485 bus,
whether extended mode was entered, and the final (discarded) offset. -/
structure BurstResult where
  bus : List ℕ
  switched : Bool
  offset : ℕ
  deriving DecidableEq, Repr

/-- The body of the `do ... while(com_buf_to_bot.available())` loop of
`main`, over the bytes of one burst, starting from match offset
`offset`.  On a full match the remaining ring content is flushed
(discarded) and the extended-mode session runs, so draining stops. -/
def passBurstFrom (offset : ℕ) (bus : List ℕ) : List ℕ → BurstResult
  | [] => { bus := bus, switched := false, offset := offset }
  | c :: rest =>
    if c = initPacketBytes.getD offset 0 then
      if offset + 1 = initPacketBytes.length then
        { bus := bus, switched := true, offset := offset + 1 }
      else
        passBurstFrom (offset + 1) bus rest
    else
      passBurstFrom 0 (bus ++ initPacketBytes.take offset ++ [c]) rest

/-- One outer-loop drain of the ring buffer: `uint8_t offset = 0;` then
the do-while body on the burst. -/
def passBurst (burst : List ℕ) : BurstResult :=
  passBurstFrom 0 [] burst

/-- Several bursts, each separated by the ring buffer having run empty
(so that the outer `while(1)` loop re-enters and re-declares
`offset = 0`).  Records all bus output and whether any burst switched
the device into extended mode. -/
def passBursts (bursts : List (List ℕ)) : List ℕ × Bool :=
  bursts.foldl
    (fun acc burst =>
      if acc.2 then acc
      else
        let r := passBurst burst
        (acc.1 ++ r.bus, r.switched))
    ([], false)

/-! ## Sequencer look-ahead arithmetic  (`motion.cpp`, `motion_runSequence`)

The per-axis velocity-correction computation of the playback loop
(motion.cpp:282-363).  All arithmetic is `int32_t`; C's truncating
division is `Int.tdiv`. -/

/-- `orig_vel = 1000L * (to - from) / duration` (motion.cpp:338). -/
def motionOrigVel (tfrom tto duration : ℤ) : ℤ :=
  Int.tdiv (1000 * (tto - tfrom)) duration

/-- `dest = from + delta * orig_vel / 1000` (motion.cpp:345). -/
def motionDest (tfrom delta origVel : ℤ) : ℤ :=
  tfrom + Int.tdiv (delta * origVel) 1000

/-- `vel = abs(1000L * (dest - encPos) / lookahead);
vel = vel * enc_to_mot / 256` (motion.cpp:348-349). -/
def motionVel (dest encPos lookahead enc_to_mot : ℤ) : ℤ :=
  Int.tdiv (|Int.tdiv (1000 * (dest - encPos)) lookahead| * enc_to_mot) 256

/-- `maxSpeed = (uint32_t)enc_to_mot * 7000 / 256` (motion.cpp:342). -/
def motionMaxSpeed (enc_to_mot : ℤ) : ℤ :=
  Int.tdiv (enc_to_mot * 7000) 256

/-- The clamp of motion.cpp:353-357: raise to 100 first, otherwise cap
at `maxSpeed`. -/
def motionClamp (v maxSpeed : ℤ) : ℤ :=
  if v < 100 then 100 else if maxSpeed < v then maxSpeed else v

/-- The whole per-axis commanded velocity of the look-ahead path. -/
def motionCommandedVel (tfrom tto duration delta encPos lookahead enc_to_mot : ℤ) : ℤ :=
  motionClamp
    (motionVel (motionDest tfrom delta (motionOrigVel tfrom tto duration))
      encPos lookahead enc_to_mot)
    (motionMaxSpeed enc_to_mot)

/-! ## Decoder round-trip lemmas -/

/-- Sequential writes `payloadBuffer[payloadIdx++] = c` over a byte list. -/
def writeSeq (buf : ℕ → ℕ) (i : ℕ) : List ℕ → (ℕ → ℕ)
  | [] => buf
  | c :: q => writeSeq (Function.update buf i c) (i + 1) q

theorem writeSeq_lt (q : List ℕ) : ∀ (buf : ℕ → ℕ) (i k : ℕ), k < i →
    writeSeq buf i q k = buf k := by
  induction q with
  | nil => intro buf i k _; rfl
  | cons c q ih =>
    intro buf i k hk
    show writeSeq (Function.update buf i c) (i + 1) q k = buf k
    rw [ih _ _ _ (Nat.lt_succ_of_lt hk), Function.update_noteq (Nat.ne_of_lt hk)]

theorem writeSeq_read (q : List ℕ) : ∀ (buf : ℕ → ℕ) (i j : ℕ), j < q.length →
    writeSeq buf i q (i + j) = q.getD j 0 := by
  induction q with
  | nil => intro _ _ j hj; exact absurd hj (Nat.not_lt_zero j)
  | cons c q ih =>
    intro buf i j hj
    cases j with
    | zero =>
      show writeSeq (Function.update buf i c) (i + 1) q i = c
      rw [writeSeq_lt _ _ _ _ (Nat.lt_succ_self i), Function.update_same]
    | succ j' =>
      have : i + (j' + 1) = (i + 1) + j' := by omega
      rw [this]
      exact ih _ _ _ (Nat.lt_of_succ_lt_succ hj)

theorem range_map_writeSeq (p : List ℕ) (buf : ℕ → ℕ) :
    (List.range p.length).map (writeSeq buf 0 p) = p := by
  apply List.ext_getElem
  · simp
  · intro j h1 h2
    simp only [List.getElem_map, List.getElem_range]
    have := writeSeq_read p buf 0 j (by simpa using h1)
    simpa [List.getD_eq_getElem?_getD, List.getElem?_eq_getElem h2] using this

/-- Shifting the output accumulator out of the decoder fold. -/
theorem runDecoder_acc (bs : List ℕ) :
    ∀ (s : DecState) (o : List (ℕ × ℕ × List ℕ)),
      bs.foldl (fun acc c =>
          let step := cmdInput acc.1 c
          (step.1, acc.2 ++ step.2.toList)) (s, o) =
        ((runDecoder s bs).1, o ++ (runDecoder s bs).2) := by
  induction bs with
  | nil => intro s o; simp [runDecoder]
  | cons c bs ih =>
    intro s o
    simp only [runDecoder, List.foldl_cons]
    rw [ih, ih]
    simp

theorem runDecoder_cons (s : DecState) (c : ℕ) (bs : List ℕ) :
    runDecoder s (c :: bs) =
      ((runDecoder (cmdInput s c).1 bs).1,
        (cmdInput s c).2.toList ++ (runDecoder (cmdInput s c).1 bs).2) := by
  simp only [runDecoder, List.foldl_cons]
  exact runDecoder_acc bs _ _

/-- Feeding the payload bytes drives the decoder from `PS_PAYLOAD` to
`PS_CHECKSUM`, writing them sequentially into the buffer. -/
theorem runDecoder_payload (q : List ℕ) :
    ∀ (s : DecState) (rest : List ℕ),
      s.parser_state = PS_PAYLOAD →
      s.payloadIdx + q.length = s.payloadLength →
      0 < q.length →
      runDecoder s (q ++ rest) =
        runDecoder
          { s with parser_state := PS_CHECKSUM,
                   payloadIdx := s.payloadLength,
                   payloadBuffer := writeSeq s.payloadBuffer s.payloadIdx q } rest := by
  induction q with
  | nil => intro _ _ _ _ h; exact absurd h (by simp)
  | cons c q ih =>
    intro s rest hps hidx _
    rw [List.cons_append, runDecoder_cons]
    have hstep : cmdInput s c =
        ({ s with payloadBuffer := Function.update s.payloadBuffer s.payloadIdx c,
                  payloadIdx := s.payloadIdx + 1,
                  parser_state :=
                    if s.payloadIdx + 1 = s.payloadLength then PS_CHECKSUM
                    else PS_PAYLOAD }, none) := by
      simp [cmdInput, hps, PS_START, PS_VERSION, PS_COMMAND, PS_LENGTH, PS_PAYLOAD]
    rw [hstep]
    cases q with
    | nil =>
      have hfin : s.payloadIdx + 1 = s.payloadLength := by simpa using hidx
      simp only [hfin, if_pos rfl]
      simp [writeSeq, hfin, Prod.ext_iff]
    | cons c' q' =>
      have hne : s.payloadIdx + 1 ≠ s.payloadLength := by
        simp only [List.length_cons] at hidx; omega
      simp only [if_neg hne]
      rw [ih _ rest rfl (by simp only [List.length_cons] at hidx ⊢; omega)
        (by simp)]
      simp [writeSeq, Prod.ext_iff]

/-- Stepping `cmd_input` out of `PS_CHECKSUM` on the matching checksum. -/
theorem cmdInput_checksum (s : DecState) (h : s.parser_state = PS_CHECKSUM)
    (c : ℕ) (hchk : decChecksum s = c) :
    cmdInput s c = ({ s with parser_state := PS_END }, none) := by
  simp [cmdInput, h, PS_START, PS_VERSION, PS_COMMAND, PS_LENGTH, PS_PAYLOAD,
    PS_CHECKSUM, hchk]

/-- Stepping `cmd_input` out of `PS_END` on the terminator: the packet is
delivered. -/
theorem cmdInput_end (s : DecState) (h : s.parser_state = PS_END) :
    cmdInput s 0x0D = ({ s with parser_state := PS_START },
      some (s.command, s.payloadLength, decPayload s)) := by
  simp [cmdInput, h, PS_START, PS_VERSION, PS_COMMAND, PS_LENGTH, PS_PAYLOAD,
    PS_CHECKSUM, PS_END]

/-- Feeding the four header bytes `FF`, version, command, length from the
initial decoder state. -/
theorem runDecoder_header (c L : ℕ) (hc : c < CMD_COUNT) (rest : List ℕ) :
    runDecoder decInit (0xFF :: VERSION :: c :: L :: rest) =
      runDecoder
        ⟨if L ≠ 0 then PS_PAYLOAD else PS_CHECKSUM, c, L, 0, zeroBuf⟩ rest := by
  rw [runDecoder_cons,
    show cmdInput decInit 0xFF = (⟨PS_VERSION, 0, 0, 0, zeroBuf⟩, none) from by
      simp [cmdInput, decInit, zeroBuf, PS_START, Prod.ext_iff]]
  rw [runDecoder_cons,
    show cmdInput ⟨PS_VERSION, 0, 0, 0, zeroBuf⟩ VERSION =
        ((⟨PS_COMMAND, 0, 0, 0, zeroBuf⟩ : DecState), none) from by
      simp [cmdInput, PS_START, PS_VERSION, Prod.ext_iff]]
  rw [runDecoder_cons,
    show cmdInput ⟨PS_COMMAND, 0, 0, 0, zeroBuf⟩ c =
        ((⟨PS_LENGTH, c, 0, 0, zeroBuf⟩ : DecState), none) from by
      simp [cmdInput, PS_START, PS_VERSION, PS_COMMAND, hc, Prod.ext_iff]]
  rw [runDecoder_cons,
    show cmdInput ⟨PS_LENGTH, c, 0, 0, zeroBuf⟩ L =
        ((⟨if L ≠ 0 then PS_PAYLOAD else PS_CHECKSUM, c, L, 0, zeroBuf⟩ :
          DecState), none) from by
      simp [cmdInput, PS_START, PS_VERSION, PS_COMMAND, PS_LENGTH, Prod.ext_iff]]
  simp

/-- **C2.** For every command code `c < CMD_COUNT` and payload of length
at most 255, encoding the packet with the on-wire layout (start byte,
version 10, command, length, payload, complement checksum, terminator
`0x0D`) and feeding the bytes to the decoder started in `PS_START`
yields exactly one parsed packet, carrying the original command, length
and payload bytes. -/
theorem c2_encode_decode_roundtrip (c : ℕ) (payload : List ℕ)
    (hc : c < CMD_COUNT) (_hlen : payload.length ≤ 255) :
    (runDecoder decInit (encodePacket c payload)).2 =
      [(c, payload.length, payload)] := by
  rw [show encodePacket c payload = 0xFF :: VERSION :: c :: payload.length ::
    (payload ++ [packetChecksum c payload.length payload, 0x0D]) from rfl]
  rw [runDecoder_header c payload.length hc]
  cases hpay : payload with
  | nil =>
    subst hpay
    simp only [List.length_nil, ne_eq, not_true_eq_false, ite_false,
      List.nil_append]
    rw [runDecoder_cons,
      show cmdInput ⟨PS_CHECKSUM, c, 0, 0, zeroBuf⟩ (packetChecksum c 0 []) =
          ((⟨PS_END, c, 0, 0, zeroBuf⟩ : DecState), none) from
        cmdInput_checksum _ rfl _ (by simp [decChecksum, decPayload])]
    rw [runDecoder_cons,
      show cmdInput ⟨PS_END, c, 0, 0, zeroBuf⟩ 0x0D =
          ((⟨PS_START, c, 0, 0, zeroBuf⟩ : DecState), some (c, 0, [])) from by
        rw [cmdInput_end _ rfl]
        simp [decPayload]]
    simp [runDecoder]
  | cons p0 ptail =>
    rw [← hpay]
    have hpos : 0 < payload.length := by rw [hpay]; simp
    rw [if_pos (Nat.pos_iff_ne_zero.mp hpos)]
    rw [runDecoder_payload payload
      ⟨PS_PAYLOAD, c, payload.length, 0, zeroBuf⟩ _ rfl (by simp) hpos]
    rw [show ({ (⟨PS_PAYLOAD, c, payload.length, 0, zeroBuf⟩ : DecState) with
          parser_state := PS_CHECKSUM,
          payloadIdx := (⟨PS_PAYLOAD, c, payload.length, 0, zeroBuf⟩ :
            DecState).payloadLength,
          payloadBuffer := writeSeq zeroBuf 0 payload } : DecState) =
        ⟨PS_CHECKSUM, c, payload.length, payload.length,
          writeSeq zeroBuf 0 payload⟩ from rfl]
    have hread : decPayload ⟨PS_CHECKSUM, c, payload.length, payload.length,
        writeSeq zeroBuf 0 payload⟩ = payload := by
      simpa [decPayload] using range_map_writeSeq payload zeroBuf
    rw [runDecoder_cons,
      show cmdInput ⟨PS_CHECKSUM, c, payload.length, payload.length,
            writeSeq zeroBuf 0 payload⟩
          (packetChecksum c payload.length payload) =
          ((⟨PS_END, c, payload.length, payload.length,
            writeSeq zeroBuf 0 payload⟩ : DecState), none) from
        cmdInput_checksum _ rfl _ (by rw [decChecksum, hread])]
    have hread2 : decPayload ⟨PS_END, c, payload.length, payload.length,
        writeSeq zeroBuf 0 payload⟩ = payload := by
      simpa [decPayload] using range_map_writeSeq payload zeroBuf
    rw [runDecoder_cons,
      show cmdInput ⟨PS_END, c, payload.length, payload.length,
            writeSeq zeroBuf 0 payload⟩ 0x0D =
          ((⟨PS_START, c, payload.length, payload.length,
            writeSeq zeroBuf 0 payload⟩ : DecState),
            some (c, payload.length, payload)) from by
        rw [cmdInput_end _ rfl, hread2]]
    simp [runDecoder]

/-- Witness for C2 at `c = 4`, payload `[1, 2, 3]`. -/
theorem c2_encode_decode_roundtrip_witness :
    (runDecoder decInit (encodePacket 4 [1, 2, 3])).2 = [(4, 3, [1, 2, 3])] :=
  c2_encode_decode_roundtrip 4 [1, 2, 3] (by decide) (by decide)

/-! ## Claims about the dispatcher, store, passthrough and sequencer -/

/-- A concrete device state that is currently playing, whose RAM buffer
and RAM config differ from the non-volatile store. -/
def c1PlayingState : DeviceState :=
  { mem_config := ⟨1, 4, [256, 256, 256, 256, 0, 0, 0, 0], 200⟩,
    g_buffer := [⟨500, [1, 2, 3, 4, 5, 6, 7, 8], 1⟩],
    eeprom_keyframes := [⟨0, [0, 0, 0, 0, 0, 0, 0, 0], 0⟩],
    eeprom_config := ⟨0, 4, [0, 0, 0, 0, 0, 0, 0, 0], 0⟩,
    g_isPlaying := true, g_shouldStop := false, g_extShouldQuit := false }

/-- **C1, counterexample.**  A `COMMIT` that arrives while the sequencer
is playing does *not* leave the non-volatile store unchanged and does
reply: `handleCommand` has no `motion_isPlaying()` guard on the
`CMD_COMMIT` branch (commands.cpp:130-132). -/
theorem c1_commit_while_playing_counterexample :
    (handleCommand c1PlayingState CMD_COMMIT []).1.eeprom_config ≠
        c1PlayingState.eeprom_config ∧
      (handleCommand c1PlayingState CMD_COMMIT []).2 ≠ [] := by
  decide

/-- **C1, amended.**  While the sequencer is playing, `CONFIG` and
`SAVE_KEYFRAME` leave the whole device state unchanged and send no
reply; `COMMIT`, however, is accepted regardless and always sends its
acknowledgement (it also flushes the RAM buffer and config to the
non-volatile store). -/
theorem c1_destructive_commands_amended (s : DeviceState) (payload : List ℕ)
    (hplay : s.g_isPlaying = true) :
    handleCommand s CMD_CONFIG payload = (s, []) ∧
      handleCommand s CMD_SAVE_KEYFRAME payload = (s, []) ∧
      (handleCommand s CMD_COMMIT payload).2 = [encodePacket CMD_COMMIT []] := by
  refine ⟨?_, ?_, ?_⟩ <;>
    simp [handleCommand, CMD_INIT, CMD_EXIT, CMD_CONFIG, CMD_READ_KEYFRAME,
      CMD_SAVE_KEYFRAME, CMD_COMMIT, CMD_STOP, hplay]

/-- Witness for C1 (amended) at the concrete playing state. -/
theorem c1_destructive_commands_amended_witness :
    handleCommand c1PlayingState CMD_CONFIG [] = (c1PlayingState, []) ∧
      handleCommand c1PlayingState CMD_SAVE_KEYFRAME [] = (c1PlayingState, []) ∧
      (handleCommand c1PlayingState CMD_COMMIT []).2 =
        [encodePacket CMD_COMMIT []] :=
  c1_destructive_commands_amended c1PlayingState [] rfl

/-- **C10.**  A well-sized `SAVE_KEYFRAME` arriving while not playing but
with index at or beyond `MAX_KEYFRAMES` leaves the device state (hence
the RAM keyframe buffer) completely unchanged, yet still replies with
the acknowledgement packet — and that reply is byte-identical to the one
sent for any stored index, so the host cannot tell the dropped write
apart (commands.cpp:73-85, motion.cpp:108-114). -/
theorem c10_savekeyframe_silent_drop (s : DeviceState) (idx : ℕ)
    (rest : List ℕ) (hplay : s.g_isPlaying = false)
    (hidx : MAX_KEYFRAMES ≤ idx) (hrest : rest.length = 19) :
    handleCommand s CMD_SAVE_KEYFRAME (idx :: rest) =
        (s, [encodePacket CMD_SAVE_KEYFRAME []]) ∧
      ∀ (idx' : ℕ) (rest' : List ℕ), rest'.length = 19 →
        (handleCommand s CMD_SAVE_KEYFRAME (idx' :: rest')).2 =
          [encodePacket CMD_SAVE_KEYFRAME []] := by
  constructor
  · have hnw : motion_writeToBuffer s idx (decodeKeyframe rest) = s := by
      simp [motion_writeToBuffer, hidx]
    simp [handleCommand, CMD_INIT, CMD_EXIT, CMD_CONFIG, CMD_READ_KEYFRAME,
      CMD_SAVE_KEYFRAME, CMD_COMMIT, CMD_STOP, hplay, sizeofSaveKeyframe,
      hrest, hnw]
  · intro idx' rest' hrest'
    simp [handleCommand, CMD_INIT, CMD_EXIT, CMD_CONFIG, CMD_READ_KEYFRAME,
      CMD_SAVE_KEYFRAME, CMD_COMMIT, CMD_STOP, hplay, sizeofSaveKeyframe,
      hrest']

/-- A concrete idle device state for the C10 witness. -/
def c10IdleState : DeviceState :=
  { mem_config := ⟨1, 4, [256, 256, 256, 256, 0, 0, 0, 0], 200⟩,
    g_buffer := [⟨500, [1, 2, 3, 4, 5, 6, 7, 8], 1⟩],
    eeprom_keyframes := [⟨0, [0, 0, 0, 0, 0, 0, 0, 0], 0⟩],
    eeprom_config := ⟨0, 4, [0, 0, 0, 0, 0, 0, 0, 0], 0⟩,
    g_isPlaying := false, g_shouldStop := false, g_extShouldQuit := false }

/-- Witness for C10 at index 200 with a zero keyframe payload. -/
theorem c10_savekeyframe_silent_drop_witness :
    handleCommand c10IdleState CMD_SAVE_KEYFRAME (200 :: List.replicate 19 0) =
        (c10IdleState, [encodePacket CMD_SAVE_KEYFRAME []]) ∧
      (handleCommand c10IdleState CMD_SAVE_KEYFRAME (5 :: List.replicate 19 0)).2 =
        [encodePacket CMD_SAVE_KEYFRAME []] :=
  ⟨(c10_savekeyframe_silent_drop c10IdleState 200 (List.replicate 19 0) rfl
      (by decide) (by decide)).1,
   (c10_savekeyframe_silent_drop c10IdleState 200 (List.replicate 19 0) rfl
      (by decide) (by decide)).2 5 (List.replicate 19 0) (by decide)⟩

/-- The stored configuration with a full keyframe store for the C7
counterexample. -/
def c7FullConfig : Config := ⟨128, 4, [256, 256, 256, 256, 0, 0, 0, 0], 200⟩

/-- **C7, counterexample.**  A persisted configuration with
`num_keyframes = MAX_KEYFRAMES` (and a perfectly ordinary
`active_axes = 4`) is *rejected* by the boot-time validity check: the
check is `num_keyframes >= MAX_KEYFRAMES` (mem.cpp:31), so `mem_init`
resets it to the empty defaults instead of accepting it. -/
theorem c7_max_keyframes_counterexample :
    c7FullConfig.num_keyframes = MAX_KEYFRAMES ∧
      c7FullConfig.active_axes ≠ 0xFFFF ∧
      (mem_init c7FullConfig).num_keyframes = 0 ∧
      (mem_init c7FullConfig).active_axes = 4 := by
  decide

/-- **C7, amended.**  The boot-time validity check accepts
`num_keyframes` up to `MAX_KEYFRAMES - 1` (any config with
`active_axes ≠ 0xFFFF` and `num_keyframes < MAX_KEYFRAMES` is kept
verbatim) and rejects `num_keyframes ≥ MAX_KEYFRAMES` — in particular
both `MAX_KEYFRAMES` and `MAX_KEYFRAMES + 1` — as empty, installing the
defaults of 4 active axes and 0 keyframes. -/
theorem c7_validity_check_amended (cfg : Config) :
    (cfg.active_axes ≠ 0xFFFF → cfg.num_keyframes < MAX_KEYFRAMES →
        mem_init cfg = cfg) ∧
      (MAX_KEYFRAMES ≤ cfg.num_keyframes →
        (mem_init cfg).num_keyframes = 0 ∧ (mem_init cfg).active_axes = 4) := by
  constructor
  · intro ha hn
    rw [mem_init, if_neg]
    push_neg
    exact ⟨ha, by omega⟩
  · intro hn
    rw [mem_init, if_pos (Or.inr hn)]
    exact ⟨rfl, rfl⟩

/-- Witness for C7 (amended): 127 keyframes are kept, 129 are wiped. -/
theorem c7_validity_check_amended_witness :
    mem_init ⟨127, 4, [256], 200⟩ = ⟨127, 4, [256], 200⟩ ∧
      (mem_init ⟨129, 4, [256], 200⟩).num_keyframes = 0 :=
  ⟨(c7_validity_check_amended ⟨127, 4, [256], 200⟩).1 (by decide) (by decide),
   ((c7_validity_check_amended ⟨129, 4, [256], 200⟩).2 (by decide)).1⟩

/-- **C5, counterexample.**  The commanded velocity is *not* always
inside `[100, enc_to_mot·7000/256]`: with `enc_to_mot = 1` the cap
`1·7000/256 = 27` lies below the floor of 100, and an axis already at
its expected position gets velocity 100 > 27 (motion.cpp:342,
353-357). -/
theorem c5_clamp_counterexample :
    motionCommandedVel 0 1000 1000 500 500 200 1 = 100 ∧
      motionMaxSpeed 1 = 27 ∧
      ¬ motionCommandedVel 0 1000 1000 500 500 200 1 ≤ motionMaxSpeed 1 := by
  decide

/-- **C5, amended.**  In the device playback loop with
`enc_to_mot = 256`, `lookahead = 200`, `from = 0`, `to = 1000`,
`duration = 1000` and look-ahead window `delta = 500`, the expected
position is `dest = 500`, and with encoder reading 450 the commanded
velocity is 250; in general the commanded velocity on this path is
raised to at least 100 and otherwise capped at `enc_to_mot·7000/256`,
so it lies in `[100, enc_to_mot·7000/256]` whenever that cap is at
least 100. -/
theorem c5_lookahead_velocity_amended (v maxv : ℤ) (hcap : 100 ≤ maxv) :
    motionDest 0 500 (motionOrigVel 0 1000 1000) = 500 ∧
      motionVel 500 450 200 256 = 250 ∧
      motionCommandedVel 0 1000 1000 500 450 200 256 = 250 ∧
      100 ≤ motionClamp v maxv ∧ motionClamp v maxv ≤ maxv := by
  refine ⟨by decide, by decide, by decide, ?_, ?_⟩ <;>
    · rw [motionClamp]
      split
      · omega
      · split <;> omega

/-- Witness for C5 (amended) at `v = 0`, `maxv = 7000`. -/
theorem c5_lookahead_velocity_amended_witness :
    motionDest 0 500 (motionOrigVel 0 1000 1000) = 500 ∧
      motionVel 500 450 200 256 = 250 ∧
      motionCommandedVel 0 1000 1000 500 450 200 256 = 250 ∧
      100 ≤ motionClamp 0 7000 ∧ motionClamp 0 7000 ≤ 7000 :=
  c5_lookahead_velocity_amended 0 7000 (by decide)

/-- **C3.**  The passthrough matcher does *not* detect an INIT packet
split into two bursts with the ring buffer running empty in between:
the match offset is a local variable re-initialised to 0 on every drain
of the ring buffer (motion.cpp, `main`), so the partially matched
prefix is discarded — it is not even replayed to the bus — and the
device never switches to extended mode.  An unsplit INIT packet in a
single burst *is* detected. -/
theorem c3_split_init_never_detected :
    (∀ k : ℕ, 0 < k → k < 6 →
        (passBursts [initPacketBytes.take k, initPacketBytes.drop k]).2 =
          false) ∧
      (passBursts [initPacketBytes]).2 = true := by
  constructor
  · intro k h1 h6
    interval_cases k <;> decide
  · decide

/-- Witness for C3 at the split `[FF] / [0A 00 00 F5 0D]`. -/
theorem c3_split_init_never_detected_witness :
    (passBursts [initPacketBytes.take 1, initPacketBytes.drop 1]).2 = false :=
  c3_split_init_never_detected.1 1 (by decide) (by decide)

/-! ## Host-side `double` arithmetic

The host code computes with `double`s; this embedding works over an
arbitrary linear ordered field with a floor function, instantiated at
`ℝ` (or `ℚ` where a decidable witness is wanted). -/

section HostField

variable {K : Type} [LinearOrderedField K] [FloorRing K]

/-- Qt's `qRound` on a `double`: round half away from zero
(`int(d + (d >= 0 ? 0.5 : -0.5))`). -/
def qRound (x : K) : ℤ :=
  if 0 ≤ x then ⌊x + 1 / 2⌋ else ⌈x - 1 / 2⌉

/-- C++ `double` → integer conversion: truncation toward zero. -/
def cppTrunc (x : K) : ℤ :=
  if 0 ≤ x then ⌊x⌋ else ⌈x⌉

/-- `double sgn = m.joint.invert ? -1 : 1`
(KeyframePlayerItem.cpp:387, 416, 1002, 1023). -/
def sgnOf (invert : Bool) : K :=
  if invert then -1 else 1

/-- The rounding error of `qRound` is at most a half. -/
theorem abs_qRound_sub_le (x : K) : |(qRound x : K) - x| ≤ 1 / 2 := by
  rw [qRound]
  split
  · rw [abs_le]
    constructor
    · have := Int.lt_floor_add_one (x + 1 / 2)
      push_cast at this
      linarith
    · have := Int.floor_le (x + 1 / 2)
      linarith
  · rw [abs_le]
    constructor
    · have := Int.le_ceil (x - 1 / 2)
      linarith
    · have := Int.ceil_lt_add_one (x - 1 / 2)
      push_cast at this
      linarith

/-- `qRound` is the identity on integers. -/
theorem qRound_intCast (n : ℤ) : qRound (n : K) = n := by
  rw [qRound]
  split
  · rw [Int.floor_eq_iff]
    constructor
    · linarith
    · linarith
  · rw [Int.ceil_eq_iff]
    constructor
    · linarith
    · linarith

/-! ### Joint configuration and the angle ↔ tick transform -/

/-- The fields of `JointInfo` (JointConfiguration.h) used by the
transform and the uploader. -/
structure JointInfo (K : Type) where
  name : String
  address : ℕ
  offset : K
  enc_to_rad : K
  mot_to_rad : K
  invert : Bool

/-- The forward transform of `RobotInterface::handle_extendedMode`
(KeyframePlayerItem.cpp:1003) and `transferKeyframes` (:388, :417):
`qRound((sgn · angle + offset) / enc_to_rad) + NT_POSITION_BIAS`. -/
def hostTick (j : JointInfo K) (angle : K) : ℤ :=
  qRound ((sgnOf j.invert * angle + j.offset) / j.enc_to_rad) +
    (NT_POSITION_BIAS : ℤ)

/-- The inverse transform of `handle_extendedMode`
(KeyframePlayerItem.cpp:1029), applied to a feedback position (a tick
with the bias already removed):
`rx = sgn * (ticks * enc_to_rad - offset)`. -/
def rxAngle (j : JointInfo K) (pos : ℤ) : K :=
  sgnOf j.invert * ((pos : K) * j.enc_to_rad - j.offset)

/-- **C6.**  For every joint configuration with `enc_to_rad > 0` and
every angle, the forward transform to a tick followed by the inverse
transform of the biased-down tick returns an angle within
`enc_to_rad / 2` of the original. -/
theorem c6_angle_tick_angle_roundtrip (j : JointInfo K) (a : K)
    (he : 0 < j.enc_to_rad) :
    |rxAngle j (hostTick j a - (NT_POSITION_BIAS : ℤ)) - a| ≤
      j.enc_to_rad / 2 := by
  have hs1 : sgnOf j.invert * sgnOf j.invert = (1 : K) := by
    rw [sgnOf]; split <;> ring
  have habs : |sgnOf j.invert| = (1 : K) := by
    rw [sgnOf]; split <;> simp
  set s : K := sgnOf j.invert with hs
  set x : K := (s * a + j.offset) / j.enc_to_rad with hx
  have hxe : x * j.enc_to_rad = s * a + j.offset := by
    rw [hx, div_mul_cancel₀ _ (ne_of_gt he)]
  have ha : a = s * (x * j.enc_to_rad - j.offset) := by
    rw [hxe]
    calc a = (s * s) * a := by rw [hs1]; ring
    _ = s * (s * a + j.offset - j.offset) := by ring
  have hkey : rxAngle j (hostTick j a - (NT_POSITION_BIAS : ℤ)) - a =
      s * j.enc_to_rad * ((qRound x : K) - x) := by
    rw [rxAngle, hostTick, add_sub_cancel_right]
    rw [← hs, ← hx]
    conv_lhs => rw [ha]
    ring
  rw [hkey, abs_mul, abs_mul, habs, one_mul, abs_of_pos he]
  calc j.enc_to_rad * |(qRound x : K) - x| ≤ j.enc_to_rad * (1 / 2) := by
        exact mul_le_mul_of_nonneg_left (abs_qRound_sub_le x) (le_of_lt he)
    _ = j.enc_to_rad / 2 := by ring

/-! ### Host sequence uploader  (`RobotInterface::transferKeyframes`,
KeyframePlayerItem.cpp:363-421) -/

/-- One item of the keyframe player's linked timeline
(`KeyframePlayerItem`).  `joints` maps joint name to the `AxisInfo`
angle; the `AxisInfo.velocity` member is used only by the host player's
real-time step phase, which is not embedded. -/
structure HostItem (K : Type) where
  joints : List (String × K)
  relativeTime : K
  absoluteTime : K
  outputCommand : ℤ

/-- `kf_output_cmd_to_proto` (KeyframePlayerItem.cpp:342-356):
`DO_RESET → OC_RESET`, `DO_SET → OC_SET`, `DO_IGNORE → OC_NOP`,
anything else → `OC_NOP` (with a warning). -/
def kf_output_cmd_to_proto (cmd : ℤ) : ℕ :=
  if cmd = 2 then 2 else if cmd = 1 then 1 else if cmd = 0 then 0 else 0

/-- A `proto::Keyframe` as assembled by the host uploader.  `duration`
is the value stored into the `uint16_t` field (`relativeTime * 1000`
truncated; the conversion is undefined for values outside
`[0, 65536)`, which the claims' hypotheses exclude); each tick is the
`qRound(...) + BIAS` value reduced into the `uint16_t` range. -/
structure WireKeyframe where
  duration : ℤ
  ticks : List ℤ
  output_command : ℕ
  deriving DecidableEq, Repr, Inhabited

/-- A tick as stored into the `uint16_t` wire field. -/
def wireTick (j : JointInfo K) (angle : K) : ℤ :=
  hostTick j angle % 65536

/-- The per-item tick array of `transferKeyframes`
(KeyframePlayerItem.cpp:378-389, 408-418): iterate the item's joints,
look the joint up in `m_motors` by name, and write
`ticks[address - 1]`.  (The C `proto::Keyframe` is stack-allocated and
uninitialised; zeros stand for the never-written cells, which no claim
reads.) -/
def buildTicks (motors : List (JointInfo K)) (joints : List (String × K)) :
    List ℤ :=
  joints.foldl
    (fun tk nv =>
      match motors.find? (fun j => j.name = nv.1) with
      | some j => tk.set (j.address - 1) (wireTick j nv.2)
      | none => tk)
    (List.replicate NUM_AXES 0)

/-- `RobotInterface::transferKeyframes`, keyframe-list build phase
(KeyframePlayerItem.cpp:363-421): the head item becomes an initial wire
keyframe with `duration = 0`; each following item becomes a wire
keyframe with `duration = next->relativeTime * 1000` (truncating
`double` → `uint16_t` conversion) and the transformed ticks. -/
def transferKeyframes (motors : List (JointInfo K))
    (items : List (HostItem K)) : List WireKeyframe :=
  match items with
  | [] => []
  | head :: tail =>
    { duration := 0, ticks := buildTicks motors head.joints,
      output_command := kf_output_cmd_to_proto head.outputCommand } ::
    tail.map fun item =>
      { duration := cppTrunc (item.relativeTime * (1000 : K)),
        ticks := buildTicks motors item.joints,
        output_command := kf_output_cmd_to_proto item.outputCommand }

/-! ### Host keyframe player, build phase  (`KeyframePlayer.cpp`,
`playTheseFrames`) -/

/-- The authored keyframe data consumed by the player (`Keyframe`,
Keyframe.h/Keyframe.cpp): joint angles by name, `speed` (the raw `int`
member), `pause` (seconds), and the digital-output combo-box index. -/
structure AuthKeyframe (K : Type) where
  jointAngles : List (String × K)
  speed : ℤ
  pause : K
  outputCommand : ℤ

/-- `Keyframe::distance` (Keyframe.cpp:327-341): the maximum norm over
this keyframe's joint names; a name missing from the other keyframe
reads as 0 (`QHash::operator[]` default-constructs). -/
def kfDistance (k k2 : AuthKeyframe K) : K :=
  k.jointAngles.foldl
    (fun d nv => max d |nv.2 - ((k2.jointAngles.lookup nv.1).getD 0)|) 0

/-- The hold item inserted for a positive pause
(KeyframePlayer.cpp:152-160).  Its `outputCommand` is never assigned and
keeps the `KeyframePlayerItem` constructor default `DO_IGNORE`. -/
def holdItemOf (k : AuthKeyframe K) (absTime : K) : HostItem K :=
  { joints := k.jointAngles, relativeTime := k.pause,
    absoluteTime := absTime, outputCommand := 0 }

/-- The move item towards keyframe `k2` (KeyframePlayer.cpp:165-177). -/
def moveItemOf (k2 : AuthKeyframe K) (t absTime : K) : HostItem K :=
  { joints := k2.jointAngles, relativeTime := t, absoluteTime := absTime,
    outputCommand := k2.outputCommand }

/-- Segment time towards `k2`
(KeyframePlayer.cpp:166-167): `qAbs(distance) / (0.01 · speed(k2) · speedLimit)`. -/
def segTime (sl : K) (k k2 : AuthKeyframe K) : K :=
  |kfDistance k k2| / (1 / 100 * (k2.speed : K) * sl)

/-- The loop body of the build phase of `playTheseFrames`
(KeyframePlayer.cpp:148-178), carrying the running absolute time: for
each keyframe insert a hold item when its pause is positive, stop after
the last keyframe, otherwise append the move item to the next one. -/
def buildGo (sl : K) : K → List (AuthKeyframe K) → List (HostItem K)
  | _, [] => []
  | absTime, [k] =>
    if 0 < k.pause then [holdItemOf k (absTime + k.pause)] else []
  | absTime, k :: k2 :: rest =>
    let hold := if 0 < k.pause then [holdItemOf k (absTime + k.pause)] else []
    let a1 := if 0 < k.pause then absTime + k.pause else absTime
    let t := segTime sl k k2
    hold ++ moveItemOf k2 t (a1 + t) :: buildGo sl (a1 + t) (k2 :: rest)

/-- `KeyframePlayer::playTheseFrames`, build phase
(KeyframePlayer.cpp:117-222): fewer than two keyframes do nothing; the
head item carries the first keyframe at time 0; when looped, a final
move item closes the ring back to the first keyframe using the first
keyframe's speed.  (The subsequent velocity-annotation pass touches only
the unembedded `AxisInfo.velocity` fields.) -/
def playTheseFrames (sl : K) (looped : Bool)
    (kfs : List (AuthKeyframe K)) : List (HostItem K) :=
  match kfs with
  | k0 :: _ :: _ =>
    let headItem : HostItem K :=
      { joints := k0.jointAngles, relativeTime := 0, absoluteTime := 0,
        outputCommand := k0.outputCommand }
    let base := headItem :: buildGo sl 0 kfs
    if looped then
      let t := segTime sl (kfs.getLastD k0) k0
      base ++ [moveItemOf k0 t ((base.getLastD headItem).absoluteTime + t)]
    else base
  | _ => []

end HostField

/-! ## Claims C6, C4 and C9 -/

/-- Witness for C6 at `K = ℚ`, unit resolution, zero offset, angle 0. -/
theorem c6_angle_tick_angle_roundtrip_witness :
    |rxAngle (⟨"J", 1, 0, 1, 1, false⟩ : JointInfo ℚ)
        (hostTick (⟨"J", 1, 0, 1, 1, false⟩ : JointInfo ℚ) 0 -
          (NT_POSITION_BIAS : ℤ)) - 0| ≤
      (⟨"J", 1, 0, 1, 1, false⟩ : JointInfo ℚ).enc_to_rad / 2 :=
  c6_angle_tick_angle_roundtrip (⟨"J", 1, 0, 1, 1, false⟩ : JointInfo ℚ) 0
    (by norm_num)

/-- **C4, counterexample.**  The wire duration is the *truncation* of
`relativeTime · 1000` (`cmd.duration = next->relativeTime * 1000` with a
`double` → `uint16_t` conversion, KeyframePlayerItem.cpp:405), not its
rounding: with `relativeTime = 3/2000` s the code stores 1 ms while
`round(relative_time · 1000) = 2`. -/
theorem c4_duration_rounding_counterexample :
    ((transferKeyframes
        [⟨"J", 1, 0, 2 * Real.pi / 4640, 2 * Real.pi / 4640, false⟩]
        [⟨[("J", 0)], 0, 0, 0⟩,
         ⟨[("J", Real.pi / 4)], 3 / 2000, 3 / 2000, 0⟩]).getD 1
          default).duration ≠ qRound ((3 / 2000 : ℝ) * 1000) := by
  have hd : ((transferKeyframes
      [⟨"J", 1, 0, 2 * Real.pi / 4640, 2 * Real.pi / 4640, false⟩]
      [⟨[("J", 0)], 0, 0, 0⟩,
       ⟨[("J", Real.pi / 4)], 3 / 2000, 3 / 2000, 0⟩]).getD 1
        default).duration = cppTrunc ((3 / 2000 : ℝ) * 1000) := by
    simp [transferKeyframes]
  rw [hd]
  have h1 : cppTrunc ((3 / 2000 : ℝ) * 1000) = 1 := by
    rw [cppTrunc, if_pos (by norm_num)]
    rw [show (3 / 2000 : ℝ) * 1000 = 3 / 2 by norm_num]
    rw [Int.floor_eq_iff]
    norm_num
  have h2 : qRound ((3 / 2000 : ℝ) * 1000) = 2 := by
    rw [qRound, if_pos (by norm_num)]
    rw [show (3 / 2000 : ℝ) * 1000 + 1 / 2 = ((2 : ℤ) : ℝ) by norm_num]
    exact Int.floor_intCast 2
  rw [h1, h2]
  decide

/-- **C4, amended.**  For the two-item timeline over the single joint
with address 1, `enc_to_rad = 2π/4640`, zero offset and no inversion,
carrying angles `0` and `π/4`, the uploader emits a first wire keyframe
with duration 0 and tick 16384 and a second with tick
`16384 + round((π/4)·4640/(2π)) = 16964` and duration
`⌊relative_time · 1000⌋` milliseconds (truncated, not rounded). -/
theorem c4_upload_two_keyframes_amended (t : ℝ) (ht : 0 ≤ t)
    (_hlt : t * 1000 < 65536) :
    transferKeyframes
        [⟨"J", 1, 0, 2 * Real.pi / 4640, 2 * Real.pi / 4640, false⟩]
        [⟨[("J", 0)], 0, 0, 0⟩, ⟨[("J", Real.pi / 4)], t, t, 0⟩] =
      [⟨0, [16384, 0, 0, 0, 0, 0, 0, 0], 0⟩,
       ⟨⌊t * 1000⌋, [16964, 0, 0, 0, 0, 0, 0, 0], 0⟩] := by
  have h0 : wireTick (⟨"J", 1, 0, 2 * Real.pi / 4640, 2 * Real.pi / 4640,
      false⟩ : JointInfo ℝ) 0 = 16384 := by
    have h : (sgnOf (⟨"J", 1, 0, 2 * Real.pi / 4640, 2 * Real.pi / 4640,
        false⟩ : JointInfo ℝ).invert * (0:ℝ) +
        (⟨"J", 1, 0, 2 * Real.pi / 4640, 2 * Real.pi / 4640,
          false⟩ : JointInfo ℝ).offset) /
        (⟨"J", 1, 0, 2 * Real.pi / 4640, 2 * Real.pi / 4640,
          false⟩ : JointInfo ℝ).enc_to_rad = ((0:ℤ):ℝ) := by
      simp [sgnOf]
    rw [wireTick, hostTick, h, qRound_intCast]
    decide
  have h1 : wireTick (⟨"J", 1, 0, 2 * Real.pi / 4640, 2 * Real.pi / 4640,
      false⟩ : JointInfo ℝ) (Real.pi / 4) = 16964 := by
    have h : (sgnOf (⟨"J", 1, 0, 2 * Real.pi / 4640, 2 * Real.pi / 4640,
        false⟩ : JointInfo ℝ).invert * (Real.pi / 4) +
        (⟨"J", 1, 0, 2 * Real.pi / 4640, 2 * Real.pi / 4640,
          false⟩ : JointInfo ℝ).offset) /
        (⟨"J", 1, 0, 2 * Real.pi / 4640, 2 * Real.pi / 4640,
          false⟩ : JointInfo ℝ).enc_to_rad = ((580:ℤ):ℝ) := by
      have hpi := Real.pi_ne_zero
      simp only [sgnOf, if_neg Bool.false_ne_true]
      push_cast
      field_simp
      ring
    rw [wireTick, hostTick, h, qRound_intCast]
    decide
  have hdur : cppTrunc (t * (1000:ℝ)) = ⌊t * 1000⌋ := by
    rw [cppTrunc, if_pos (by nlinarith)]
  simp [transferKeyframes, buildTicks, List.find?, kf_output_cmd_to_proto,
    NUM_AXES, List.replicate, h0, h1, hdur]

/-- Witness for C4 (amended) at `relative_time = 1` s. -/
theorem c4_upload_two_keyframes_amended_witness :
    transferKeyframes
        [⟨"J", 1, 0, 2 * Real.pi / 4640, 2 * Real.pi / 4640, false⟩]
        [⟨[("J", 0)], 0, 0, 0⟩, ⟨[("J", Real.pi / 4)], 1, 1, 0⟩] =
      [⟨0, [16384, 0, 0, 0, 0, 0, 0, 0], 0⟩,
       ⟨⌊(1 : ℝ) * 1000⌋, [16964, 0, 0, 0, 0, 0, 0, 0], 0⟩] :=
  c4_upload_two_keyframes_amended 1 (by norm_num) (by norm_num)

/-- **C9, counterexample.**  A keyframe whose pause is zero inserts *no*
hold item: the build phase guards the insertion with `if (pause > 0)`
(KeyframePlayer.cpp:152), so a two-keyframe list with zero pauses builds
a two-item timeline (head plus one move item) whose second item has a
nonzero relative time, not a hold item of relative time 0. -/
theorem c9_zero_pause_counterexample :
    (playTheseFrames (1:ℚ) false
        [⟨[("J", 0)], 50, 0, 0⟩, ⟨[("J", 1)], 100, 0, 0⟩]).length = 2 ∧
      ((playTheseFrames (1:ℚ) false
        [⟨[("J", 0)], 50, 0, 0⟩, ⟨[("J", 1)], 100, 0, 0⟩]).getD 1
          ⟨[], 0, 0, 0⟩).relativeTime ≠ 0 := by
  constructor <;>
    norm_num [playTheseFrames, buildGo, segTime, kfDistance, moveItemOf,
      List.lookup]

/-- **C9, amended.**  A keyframe whose pause is strictly positive causes
a hold item to be inserted: for a two-keyframe timeline whose first
keyframe has `pause > 0`, the item following the head carries
`relative_time = pause` and holds the first keyframe's joint angles. -/
theorem c9_positive_pause_hold_item_amended {K : Type}
    [LinearOrderedField K] (k0 k1 : AuthKeyframe K) (sl : K)
    (hp : 0 < k0.pause) :
    ((playTheseFrames sl false [k0, k1]).getD 1 ⟨[], 0, 0, 0⟩).relativeTime =
        k0.pause ∧
      ((playTheseFrames sl false [k0, k1]).getD 1 ⟨[], 0, 0, 0⟩).joints =
        k0.jointAngles := by
  constructor <;> simp [playTheseFrames, buildGo, hp, holdItemOf]

/-- Witness for C9 (amended) with a one-second pause. -/
theorem c9_positive_pause_hold_item_amended_witness :
    ((playTheseFrames (1:ℚ) false
        [⟨[("J", 0)], 50, 1, 0⟩, ⟨[("J", 1)], 100, 0, 0⟩]).getD 1
          ⟨[], 0, 0, 0⟩).relativeTime = (1:ℚ) ∧
      ((playTheseFrames (1:ℚ) false
        [⟨[("J", 0)], 50, 1, 0⟩, ⟨[("J", 1)], 100, 0, 0⟩]).getD 1
          ⟨[], 0, 0, 0⟩).joints = [("J", (0:ℚ))] :=
  c9_positive_pause_hold_item_amended ⟨[("J", 0)], 50, 1, 0⟩
    ⟨[("J", 1)], 100, 0, 0⟩ 1 (by norm_num)

/-! ## Keyframe text serialisation  (`Source/Keyframe.cpp`)

`Keyframe::toString` (:380-398), `Keyframe::fromString` (:405-443) and
`Keyframe::validateString` (:486-491).  Strings are embedded as
`List Char`; `QRegExp` is embedded by a small regular-expression engine
with Brzozowski derivatives, and `QRegExp::exactMatch` is a full match.
`double` values are `ℚ`, with `QString::number(double)` idealised as the
exact shortest decimal rendering (Qt's 6-significant-digit `%g`
truncation of binary `double`s is floating-point behaviour outside this
embedding; the theorems quantify only over exactly renderable values). -/

/-- Strings as character lists (`QString` contents). -/
abbrev Str := List Char

/-- `\d` of `QRegExp`: the characters `'0'`(48) .. `'9'`(57). -/
def isDigitCh (c : Char) : Bool := 48 ≤ c.toNat && c.toNat ≤ 57

/-- `\s` of `QRegExp`: space(32), tab(9), `\n`(10), vertical tab(11),
form feed(12), `\r`(13). -/
def isSpaceCh (c : Char) : Bool :=
  c.toNat = 32 || c.toNat = 9 || c.toNat = 10 || c.toNat = 11 ||
    c.toNat = 12 || c.toNat = 13

/-- `\w` of `QRegExp`: `'a'`(97) .. `'z'`(122), `'A'`(65) .. `'Z'`(90),
`'0'` .. `'9'`, `'_'`(95). -/
def isWordCh (c : Char) : Bool :=
  (97 ≤ c.toNat && c.toNat ≤ 122) || (65 ≤ c.toNat && c.toNat ≤ 90) ||
    (48 ≤ c.toNat && c.toNat ≤ 57) || c.toNat = 95

/-- The character class `[\w\(\)]` of the validation regex
(`'('` = 40, `')'` = 41). -/
def isJointTokenCh (c : Char) : Bool :=
  isWordCh c || c.toNat = 40 || c.toNat = 41

/-- Regular expressions over character predicates. -/
inductive RE where
  | emptyset : RE
  | emptystr : RE
  | sym : (Char → Bool) → RE
  | cat : RE → RE → RE
  | alt : RE → RE → RE
  | star : RE → RE

/-- Does `r` accept the empty string? -/
def RE.nullable : RE → Bool
  | .emptyset => false
  | .emptystr => true
  | .sym _ => false
  | .cat a b => a.nullable && b.nullable
  | .alt a b => a.nullable || b.nullable
  | .star _ => true

/-- Concatenation with `emptyset`/`emptystr` pruning (keeps derivatives
small). -/
def RE.mkCat : RE → RE → RE
  | .emptyset, _ => .emptyset
  | _, .emptyset => .emptyset
  | .emptystr, b => b
  | a, .emptystr => a
  | a, b => .cat a b

/-- Alternation with `emptyset` pruning. -/
def RE.mkAlt : RE → RE → RE
  | .emptyset, b => b
  | a, .emptyset => a
  | a, b => .alt a b

/-- Brzozowski derivative. -/
def RE.deriv : RE → Char → RE
  | .emptyset, _ => .emptyset
  | .emptystr, _ => .emptyset
  | .sym p, c => if p c then .emptystr else .emptyset
  | .cat a b, c =>
    if a.nullable then .mkAlt (.mkCat (a.deriv c) b) (b.deriv c)
    else .mkCat (a.deriv c) b
  | .alt a b, c => .mkAlt (a.deriv c) (b.deriv c)
  | .star a, c => .mkCat (a.deriv c) (.star a)

/-- The derivative matcher (a full, anchored match, as
`QRegExp::exactMatch`). -/
def RE.matches (r : RE) (s : Str) : Bool := (s.foldl RE.deriv r).nullable

/-- Language membership. -/
inductive REMatch : RE → Str → Prop where
  | emptystr : REMatch .emptystr []
  | sym {p : Char → Bool} {c : Char} : p c = true → REMatch (.sym p) [c]
  | cat {a b : RE} {s t : Str} :
      REMatch a s → REMatch b t → REMatch (.cat a b) (s ++ t)
  | altL {a b : RE} {s : Str} : REMatch a s → REMatch (.alt a b) s
  | altR {a b : RE} {s : Str} : REMatch b s → REMatch (.alt a b) s
  | starNil {a : RE} : REMatch (.star a) []
  | starCons {a : RE} {s t : Str} :
      REMatch a s → REMatch (.star a) t → REMatch (.star a) (s ++ t)

theorem RE.mkCat_cases (a b : RE) :
    RE.mkCat a b = .cat a b ∨ a = .emptyset ∨ b = .emptyset ∨
      (a = .emptystr ∧ RE.mkCat a b = b) ∨
      (b = .emptystr ∧ RE.mkCat a b = a) := by
  cases a <;> cases b <;> simp [RE.mkCat]

theorem RE.mkAlt_cases (a b : RE) :
    RE.mkAlt a b = .alt a b ∨ (a = .emptyset ∧ RE.mkAlt a b = b) ∨
      (b = .emptyset ∧ RE.mkAlt a b = a) := by
  cases a <;> cases b <;> simp [RE.mkAlt]

theorem REMatch.mkCat_intro {a b : RE} {s t : Str}
    (ha : REMatch a s) (hb : REMatch b t) :
    REMatch (RE.mkCat a b) (s ++ t) := by
  rcases RE.mkCat_cases a b with h | h | h | ⟨h1, h2⟩ | ⟨h1, h2⟩
  · rw [h]; exact REMatch.cat ha hb
  · subst h; exact nomatch ha
  · subst h; exact nomatch hb
  · subst h1; cases ha; rw [h2]; simpa using hb
  · subst h1; cases hb; rw [h2]; simpa using ha

theorem REMatch.mkAlt_introL {a b : RE} {s : Str}
    (ha : REMatch a s) : REMatch (RE.mkAlt a b) s := by
  rcases RE.mkAlt_cases a b with h | ⟨h1, h2⟩ | ⟨h1, h2⟩
  · rw [h]; exact REMatch.altL ha
  · subst h1; exact nomatch ha
  · rw [h2]; exact ha

theorem REMatch.mkAlt_introR {a b : RE} {s : Str}
    (hb : REMatch b s) : REMatch (RE.mkAlt a b) s := by
  rcases RE.mkAlt_cases a b with h | ⟨h1, h2⟩ | ⟨h1, h2⟩
  · rw [h]; exact REMatch.altR hb
  · rw [h2]; exact hb
  · subst h1; exact nomatch hb

theorem REMatch.nullable_of_nil : ∀ {r : RE} {u : Str},
    REMatch r u → u = [] → r.nullable = true := by
  intro r u h
  induction h with
  | emptystr => intro _; rfl
  | sym _ => intro hu; simp at hu
  | cat _ _ iha ihb =>
    intro hu
    rcases List.append_eq_nil.mp hu with ⟨h1, h2⟩
    simp [RE.nullable, iha h1, ihb h2]
  | altL _ ih => intro hu; simp [RE.nullable, ih hu]
  | altR _ ih => intro hu; simp [RE.nullable, ih hu]
  | starNil => intro _; rfl
  | starCons _ _ _ _ => intro _; rfl

theorem REMatch.deriv_of_cons : ∀ {r : RE} {u : Str},
    REMatch r u → ∀ {c : Char} {s : Str}, u = c :: s →
    REMatch (r.deriv c) s := by
  intro r u h
  induction h with
  | emptystr => intro c s hu; simp at hu
  | sym hp =>
    rename_i p c0
    intro c s hu
    injection hu with h1 h2
    subst h1
    subst h2
    rw [show (RE.sym p).deriv c0 = (if p c0 then .emptystr else .emptyset)
        from rfl, if_pos hp]
    exact REMatch.emptystr
  | cat ha hb iha ihb =>
    rename_i a b s1 t
    intro c s hu
    cases s1 with
    | nil =>
      have hna : a.nullable = true := REMatch.nullable_of_nil ha rfl
      rw [show (RE.cat a b).deriv c =
          (if a.nullable then RE.mkAlt (RE.mkCat (a.deriv c) b) (b.deriv c)
           else RE.mkCat (a.deriv c) b) from rfl, if_pos hna]
      exact REMatch.mkAlt_introR (ihb (by simpa using hu))
    | cons c1 s1' =>
      obtain ⟨hc, hs⟩ := List.cons.inj (by simpa using hu)
      subst hc
      have h1 : REMatch (a.deriv c1) s1' := iha rfl
      rw [show (RE.cat a b).deriv c1 =
          (if a.nullable then RE.mkAlt (RE.mkCat (a.deriv c1) b) (b.deriv c1)
           else RE.mkCat (a.deriv c1) b) from rfl]
      by_cases hna : a.nullable = true
      · rw [if_pos hna]
        exact REMatch.mkAlt_introL (hs ▸ REMatch.mkCat_intro h1 hb)
      · rw [if_neg hna]
        exact hs ▸ REMatch.mkCat_intro h1 hb
  | altL ha ih =>
    intro c s hu
    exact REMatch.mkAlt_introL (ih hu)
  | altR hb ih =>
    intro c s hu
    exact REMatch.mkAlt_introR (ih hu)
  | starNil => intro c s hu; simp at hu
  | starCons ha hb iha ihb =>
    rename_i a s1 t
    intro c s hu
    cases s1 with
    | nil => exact ihb (by simpa using hu)
    | cons c1 s1' =>
      obtain ⟨hc, hs⟩ := List.cons.inj (by simpa using hu)
      subst hc
      exact hs ▸ REMatch.mkCat_intro (iha rfl) hb

/-- Soundness of the derivative matcher: a derivable match is accepted. -/
theorem RE.matches_of_REMatch : ∀ {s : Str} {r : RE},
    REMatch r s → r.matches s = true := by
  intro s
  induction s with
  | nil =>
    intro r h
    exact REMatch.nullable_of_nil h rfl
  | cons c s ih =>
    intro r h
    show ((c :: s).foldl RE.deriv r).nullable = true
    rw [List.foldl_cons]
    exact ih (REMatch.deriv_of_cons h rfl)

/-! ### Decimal rendering and parsing of numbers

`QString::number(int)` renders a decimal integer; `QString::toInt` /
`QString::toDouble` parse one back.  `QString::number(double)` is
idealised as exact decimal rendering (see the section comment). -/

/-- The character of a decimal digit. -/
def digitChar (d : ℕ) : Char := Char.ofNat (48 + d)

/-- The value of a decimal digit character. -/
def charDigit (c : Char) : ℕ := c.toNat - 48

/-- Decimal digits of `n`, most significant first, with explicit fuel
(any fuel `≥ n` is enough; structural recursion keeps the definition
kernel-computable). -/
def showNatAux : ℕ → ℕ → Str
  | 0, _ => []
  | fuel + 1, n =>
    if n = 0 then [] else showNatAux fuel (n / 10) ++ [digitChar (n % 10)]

/-- Decimal rendering of a natural number. -/
def showNat (n : ℕ) : Str := if n = 0 then ['0'] else showNatAux n n

/-- Decimal value of a digit string, most significant digit first. -/
def parseNat (s : Str) : ℕ :=
  Nat.ofDigits 10 ((s.map charDigit).reverse)

/-- `QString::number(int)`. -/
def showInt (z : ℤ) : Str :=
  (if z < 0 then ['-'] else []) ++ showNat z.natAbs

theorem charDigit_digitChar {d : ℕ} (hd : d < 10) :
    charDigit (digitChar d) = d := by
  interval_cases d <;> decide

theorem isDigitCh_digitChar {d : ℕ} (hd : d < 10) :
    isDigitCh (digitChar d) = true := by
  interval_cases d <;> decide

theorem mem_showNatAux : ∀ {fuel n : ℕ} {c : Char}, c ∈ showNatAux fuel n →
    ∃ d, d < 10 ∧ c = digitChar d := by
  intro fuel
  induction fuel with
  | zero => intro n c hc; simp [showNatAux] at hc
  | succ fuel ih =>
    intro n c hc
    rw [showNatAux] at hc
    split at hc
    · simp at hc
    · rw [List.mem_append] at hc
      rcases hc with hc | hc
      · exact ih hc
      · simp only [List.mem_singleton] at hc
        exact ⟨n % 10, Nat.mod_lt n (by norm_num), hc⟩

theorem mem_showNat {n : ℕ} {c : Char} (hc : c ∈ showNat n) :
    ∃ d, d < 10 ∧ c = digitChar d := by
  rw [showNat] at hc
  split at hc
  · simp only [List.mem_singleton] at hc
    exact ⟨0, by norm_num, hc⟩
  · exact mem_showNatAux hc

theorem showNat_all_digits (n : ℕ) : ∀ c ∈ showNat n, isDigitCh c = true := by
  intro c hc
  obtain ⟨d, hd, rfl⟩ := mem_showNat hc
  exact isDigitCh_digitChar hd

theorem showNat_ne_nil (n : ℕ) : showNat n ≠ [] := by
  rw [showNat]
  split
  · simp
  · rename_i hn
    match n, hn with
    | n + 1, _ =>
      rw [showNatAux]
      simp

theorem ofDigits_replicate_zero (j : ℕ) :
    Nat.ofDigits 10 (List.replicate j 0) = 0 := by
  induction j with
  | zero => rfl
  | succ j ih => simp [List.replicate_succ, Nat.ofDigits_cons, ih]

/-- Leading zeros do not change the parsed value. -/
theorem parseNat_replicate_zero (j : ℕ) (s : Str) :
    parseNat (List.replicate j '0' ++ s) = parseNat s := by
  rw [parseNat, parseNat, List.map_append, List.reverse_append]
  rw [Nat.ofDigits_append]
  rw [List.map_replicate, show charDigit '0' = 0 from by decide]
  simp [ofDigits_replicate_zero]

theorem parseNat_append_digit (s : Str) (c : Char) :
    parseNat (s ++ [c]) = charDigit c + 10 * parseNat s := by
  rw [parseNat, parseNat, List.map_append, List.reverse_append]
  simp [Nat.ofDigits_cons]

theorem parseNat_showNatAux : ∀ (fuel n : ℕ), n ≤ fuel →
    parseNat (showNatAux fuel n) = n := by
  intro fuel
  induction fuel with
  | zero =>
    intro n hn
    interval_cases n
    decide
  | succ fuel ih =>
    intro n hn
    rw [showNatAux]
    split
    · subst ‹n = 0›; decide
    · rw [parseNat_append_digit,
        charDigit_digitChar (Nat.mod_lt n (by norm_num)),
        ih (n / 10) (by omega)]
      omega

theorem parseNat_showNat (n : ℕ) : parseNat (showNat n) = n := by
  rw [showNat]
  split
  · subst ‹n = 0›; decide
  · exact parseNat_showNatAux n n le_rfl

theorem showNatAux_length_le : ∀ (fuel n k : ℕ), n ≤ fuel → n < 10 ^ k →
    (showNatAux fuel n).length ≤ k := by
  intro fuel
  induction fuel with
  | zero => intro n k _ _; simp [showNatAux]
  | succ fuel ih =>
    intro n k hn hk
    rw [showNatAux]
    split
    · simp
    · rename_i hn0
      have hk0 : k ≠ 0 := by
        intro h
        rw [h] at hk
        omega
      have hdiv : n / 10 < 10 ^ (k - 1) := by
        rw [Nat.div_lt_iff_lt_mul (by norm_num)]
        calc n < 10 ^ k := hk
          _ = 10 ^ (k - 1) * 10 := by
            rw [← pow_succ]
            congr 1
            omega
      have := ih (n / 10) (k - 1) (by omega) hdiv
      simp only [List.length_append, List.length_singleton]
      omega

/-- Digit count of a natural below `10 ^ k`. -/
theorem showNat_length_le {m k : ℕ} (hk : 0 < k) (h : m < 10 ^ k) :
    (showNat m).length ≤ k := by
  rw [showNat]
  split
  · simpa using hk
  · exact showNatAux_length_le m m k le_rfl h

/-! ### The validation pattern
`^((speed:\d{1,3})?(\s)?(pause:\d{1,3})?((\s)?[\w\(\)]{1,}:-?\d{1,}(\.\d{1,})?)*\n?){1,}$`
(Keyframe.cpp:489), built from the engine's combinators. -/

/-- A single literal character. -/
def charRE (c : Char) : RE := .sym (· = c)

/-- A literal string. -/
def strRE (s : Str) : RE := s.foldr (fun c r => .cat (charRE c) r) .emptystr

/-- `r?`. -/
def optRE (r : RE) : RE := .alt r .emptystr

/-- `r{1,}` (`+`). -/
def plusRE (r : RE) : RE := .cat r (.star r)

/-- `r{1,3}`. -/
def rep13 (r : RE) : RE := .cat r (optRE (.cat r (optRE r)))

def digitRE : RE := .sym isDigitCh

/-- `-?\d{1,}(\.\d{1,})?`. -/
def numberRE : RE :=
  .cat (optRE (charRE '-'))
    (.cat (plusRE digitRE) (optRE (.cat (charRE '.') (plusRE digitRE))))

/-- `(\s)?[\w\(\)]{1,}:` followed by a number. -/
def tokenRE : RE :=
  .cat (optRE (.sym isSpaceCh))
    (.cat (plusRE (.sym isJointTokenCh)) (.cat (charRE ':') numberRE))

/-- The parenthesised group repeated by the outer `{1,}`. -/
def lineInnerRE : RE :=
  .cat (optRE (.cat (strRE "speed:".data) (rep13 digitRE)))
    (.cat (optRE (.sym isSpaceCh))
      (.cat (optRE (.cat (strRE "pause:".data) (rep13 digitRE)))
        (.cat (.star tokenRE) (optRE (charRE (Char.ofNat 10))))))

def keyframeLineRE : RE := plusRE lineInnerRE

/-- `Keyframe::validateString` (Keyframe.cpp:486-491):
`QRegExp::exactMatch` of the pattern on the whole string. -/
def validateString (s : Str) : Bool := keyframeLineRE.matches s

/-! ### `QString::number` / `QString::toInt` / `QString::toDouble` -/

/-- A fractional part zero-padded on the left to `k` digits. -/
def padDigits (k m : ℕ) : Str :=
  List.replicate (k - (showNat m).length) '0' ++ showNat m

/-- The decimal scale of a rational: a power `k ≤ 64` with
`den ∣ 10 ^ k` when one exists (it does for every exactly renderable
value). -/
def qScale (q : ℚ) : ℕ :=
  (((List.range 65).find? fun k => q.den ∣ 10 ^ k).getD 0)

/-- `|q|` scaled to an integer at the decimal scale. -/
def qM (q : ℚ) : ℕ := q.num.natAbs * 10 ^ qScale q / q.den

/-- Exact decimal rendering of `|q|`. -/
def showQAbs (q : ℚ) : Str :=
  showNat (qM q / 10 ^ qScale q) ++
    (if qScale q = 0 then [] else
      '.' :: padDigits (qScale q) (qM q % 10 ^ qScale q))

/-- The embedding of `QString::number(double)` on its exact plain-decimal
domain: sign plus the minimal-scale decimal rendering.  Qt's default is
format `g` with 6 significant digits — plain decimal with trailing
zeros trimmed while the value needs at most 6 significant digits and
its magnitude lies in `[1e-4, 1e6)`, exponent notation otherwise.  On
`renderable` values (the hypothesis the round-trip theorem carries)
this function is exactly that output; see `renderable` for why, and for
what happens outside that domain. -/
def showQ (q : ℚ) : Str :=
  (if q.num < 0 then ['-'] else []) ++ showQAbs q

/-- The domain on which the `showQ` embedding of
`QString::number(double)` (default `g` format, 6 significant digits) is
faithful: an integer multiple of `0.001` of magnitude below `1000` has
at most 6 significant digits and decimal exponent in `[-3, 2]`, so the
6-significant-digit rounding never loses a digit and the exponent
notation (chosen only below `1e-4` or from `1e6`) never fires; the
decimal → `double` → 6-significant-decimal trip is exact because 6
significant digits are far below the 15 a `double` round-trips, and
Qt's trailing-zero trimming is the minimal decimal scale `qScale`
computes.  Outside this domain the real program rounds
(`0.1234567` prints as `"0.123457"`) or emits exponent form (`1e-05`,
which `validateString` even rejects), and its round trip genuinely
fails, so the round-trip theorem must not range over such values. -/
def renderable (q : ℚ) : Prop := q.den ∣ 10 ^ 3 ∧ |q| < 1000

theorem renderable_dvd64 {q : ℚ} (h : renderable q) : q.den ∣ 10 ^ 64 :=
  h.1.trans (pow_dvd_pow 10 (by norm_num))

/-- Unsigned part of `QString::toDouble`: digits with an optional
fraction (the exponent forms accepted by Qt never arise here). -/
def parseUQ (s : Str) : ℚ × Bool :=
  let ip := s.takeWhile isDigitCh
  let rest := s.dropWhile isDigitCh
  if ip = [] then (0, false)
  else
    match rest with
    | [] => ((parseNat ip : ℚ), true)
    | c :: fr =>
      if c = '.' then
        if fr ≠ [] ∧ fr.all isDigitCh then
          ((parseNat ip : ℚ) + (parseNat fr : ℚ) / 10 ^ fr.length, true)
        else (0, false)
      else (0, false)

/-- The embedding of `QString::toDouble`: optional sign, then the
unsigned form; `(0, false)` on failure. -/
def parseQQt (s : Str) : ℚ × Bool :=
  match s with
  | [] => (0, false)
  | c :: rest =>
    if c = '-' then
      let r := parseUQ rest
      (-r.1, r.2)
    else if c = '+' then parseUQ rest
    else parseUQ (c :: rest)

/-- The embedding of `QString::toInt`: optional sign followed by a
nonempty all-digit string; `(0, false)` on failure. -/
def parseIntQt (s : Str) : ℤ × Bool :=
  match s with
  | [] => (0, false)
  | c :: rest =>
    if c = '-' then
      if rest ≠ [] ∧ rest.all isDigitCh then (-(parseNat rest : ℤ), true)
      else (0, false)
    else if c = '+' then
      if rest ≠ [] ∧ rest.all isDigitCh then ((parseNat rest : ℤ), true)
      else (0, false)
    else
      if (c :: rest).all isDigitCh then ((parseNat (c :: rest) : ℤ), true)
      else (0, false)

/-! ### Character and parsing lemmas for the round trip -/

/-- The characters a rendered number can contain: digits, `'-'`(45),
`'.'`(46). -/
def isNumCh (c : Char) : Bool := isDigitCh c || c.toNat = 45 || c.toNat = 46

theorem numCh_facts {c : Char} (h : isNumCh c = true) :
    isSpaceCh c = false ∧ c ≠ ':' ∧ c ≠ Char.ofNat 10 := by
  simp only [isNumCh, isDigitCh, isSpaceCh, Bool.or_eq_true, Bool.and_eq_true,
    decide_eq_true_eq, Bool.or_eq_false_iff, decide_eq_false_iff_not,
    ne_eq] at h ⊢
  refine ⟨by omega, fun heq => ?_, fun heq => ?_⟩
  · have h2 : c.toNat = 58 := by rw [heq]; decide
    omega
  · have h2 : c.toNat = 10 := by rw [heq]; decide
    omega

theorem jointTokenCh_facts {c : Char} (h : isJointTokenCh c = true) :
    isSpaceCh c = false ∧ c ≠ ':' ∧ c ≠ Char.ofNat 10 := by
  simp only [isJointTokenCh, isWordCh, isSpaceCh, Bool.or_eq_true,
    Bool.and_eq_true, decide_eq_true_eq, Bool.or_eq_false_iff,
    decide_eq_false_iff_not, ne_eq] at h ⊢
  refine ⟨by omega, fun heq => ?_, fun heq => ?_⟩
  · have h2 : c.toNat = 58 := by rw [heq]; decide
    omega
  · have h2 : c.toNat = 10 := by rw [heq]; decide
    omega

theorem digit_isNumCh {c : Char} (h : isDigitCh c = true) : isNumCh c = true := by
  simp [isNumCh, h]

theorem digit_not_minus {c : Char} (h : isDigitCh c = true) :
    c ≠ '-' ∧ c ≠ '+' ∧ c ≠ '.' := by
  simp only [isDigitCh, Bool.and_eq_true, decide_eq_true_eq, ne_eq] at h ⊢
  refine ⟨fun heq => ?_, fun heq => ?_, fun heq => ?_⟩
  · have h2 : c.toNat = 45 := by rw [heq]; decide
    omega
  · have h2 : c.toNat = 43 := by rw [heq]; decide
    omega
  · have h2 : c.toNat = 46 := by rw [heq]; decide
    omega

theorem mem_showInt {z : ℤ} {c : Char} (hc : c ∈ showInt z) :
    isNumCh c = true := by
  rw [showInt] at hc
  rw [List.mem_append] at hc
  rcases hc with hc | hc
  · split at hc
    · simp only [List.mem_singleton] at hc
      subst hc
      decide
    · simp at hc
  · exact digit_isNumCh (showNat_all_digits _ c hc)

theorem mem_padDigits {k m : ℕ} {c : Char} (hc : c ∈ padDigits k m) :
    isDigitCh c = true := by
  rw [padDigits, List.mem_append] at hc
  rcases hc with hc | hc
  · rw [List.eq_of_mem_replicate hc]
    decide
  · exact showNat_all_digits _ c hc

theorem mem_showQAbs {q : ℚ} {c : Char} (hc : c ∈ showQAbs q) :
    isNumCh c = true := by
  rw [showQAbs, List.mem_append] at hc
  rcases hc with hc | hc
  · exact digit_isNumCh (showNat_all_digits _ c hc)
  · split at hc
    · simp at hc
    · simp only [List.mem_cons] at hc
      rcases hc with rfl | hc
      · decide
      · exact digit_isNumCh (mem_padDigits hc)

theorem mem_showQ {q : ℚ} {c : Char} (hc : c ∈ showQ q) :
    isNumCh c = true := by
  rw [showQ, List.mem_append] at hc
  rcases hc with hc | hc
  · split at hc
    · simp only [List.mem_singleton] at hc
      subst hc
      decide
    · simp at hc
  · exact mem_showQAbs hc

/-! ### `takeWhile`/`dropWhile` over a digit prefix -/

theorem takeWhile_all {p : Char → Bool} :
    ∀ {t : Str}, (∀ c ∈ t, p c = true) →
      t.takeWhile p = t ∧ t.dropWhile p = [] := by
  intro t
  induction t with
  | nil => intro _; exact ⟨rfl, rfl⟩
  | cons c t ih =>
    intro h
    have hc : p c = true := h c (by simp)
    have ht := ih fun c hc => h c (by simp [hc])
    rw [List.takeWhile_cons, List.dropWhile_cons]
    simp [hc, ht.1, ht.2]

theorem takeWhile_append_stop {p : Char → Bool} {c0 : Char} :
    ∀ {t : Str} (r : Str), (∀ c ∈ t, p c = true) → p c0 = false →
      (t ++ c0 :: r).takeWhile p = t ∧ (t ++ c0 :: r).dropWhile p = c0 :: r := by
  intro t
  induction t with
  | nil =>
    intro r _ hc0
    rw [List.nil_append, List.takeWhile_cons, List.dropWhile_cons]
    simp [hc0]
  | cons c t ih =>
    intro r h hc0
    have hc : p c = true := h c (by simp)
    have ht := ih r (fun c hc => h c (by simp [hc])) hc0
    rw [List.cons_append, List.takeWhile_cons, List.dropWhile_cons]
    simp [hc, ht.1, ht.2]

/-! ### Parsing inverts rendering -/

theorem parseIntQt_showInt (z : ℤ) : parseIntQt (showInt z) = (z, true) := by
  by_cases hz : z < 0
  · rw [showInt, if_pos hz, List.singleton_append, parseIntQt]
    rw [if_pos rfl]
    rw [if_pos ⟨showNat_ne_nil _, List.all_eq_true.mpr (showNat_all_digits _)⟩]
    rw [parseNat_showNat]
    have : -(z.natAbs : ℤ) = z := by omega
    rw [this]
  · rw [showInt, if_neg hz, List.nil_append]
    cases hs : showNat z.natAbs with
    | nil => exact absurd hs (showNat_ne_nil _)
    | cons c rest =>
      have hdig : isDigitCh c = true := by
        apply showNat_all_digits z.natAbs
        rw [hs]
        simp
      obtain ⟨hm, hp, _⟩ := digit_not_minus hdig
      rw [parseIntQt]
      rw [if_neg hm, if_neg hp]
      rw [if_pos (by
        rw [← hs]
        exact List.all_eq_true.mpr (showNat_all_digits _))]
      rw [← hs, parseNat_showNat]
      have : (z.natAbs : ℤ) = z := by omega
      rw [this]

theorem qScale_dvd {q : ℚ} (hr : q.den ∣ 10 ^ 64) :
    q.den ∣ 10 ^ qScale q := by
  rw [qScale]
  cases hfind : (List.range 65).find? fun k => q.den ∣ 10 ^ k with
  | some k =>
    have hp := List.find?_some hfind
    simpa using hp
  | none =>
    exfalso
    have := List.find?_eq_none.mp hfind 64 (by simp)
    simp at this
    exact this hr

theorem padDigits_length {k m : ℕ} (hk : 0 < k) (h : m < 10 ^ k) :
    (padDigits k m).length = k := by
  rw [padDigits, List.length_append, List.length_replicate]
  have := showNat_length_le hk h
  omega

theorem parseNat_padDigits (k m : ℕ) : parseNat (padDigits k m) = m := by
  rw [padDigits, parseNat_replicate_zero, parseNat_showNat]

/-- The scaled numerator recovers `|q| · 10 ^ qScale q` exactly. -/
theorem qM_cast {q : ℚ} (hdvd : q.den ∣ 10 ^ qScale q) :
    ((qM q : ℕ) : ℚ) = |q| * 10 ^ qScale q := by
  have hden0 : (q.den : ℚ) ≠ 0 := Nat.cast_ne_zero.mpr q.den_nz
  have h1 : q.den ∣ q.num.natAbs * 10 ^ qScale q := hdvd.mul_left _
  have habs : |q| = ((q.num.natAbs : ℕ) : ℚ) / (q.den : ℚ) := by
    rw [Int.cast_natAbs, Int.cast_abs]
    rw [← abs_of_pos (show (0:ℚ) < (q.den:ℚ) from by
      exact_mod_cast q.pos)]
    rw [← abs_div, Rat.num_div_den]
  rw [qM, Nat.cast_div h1 hden0]
  push_cast
  rw [habs]
  ring

theorem parseUQ_showQAbs {q : ℚ} (hr : q.den ∣ 10 ^ 64) :
    parseUQ (showQAbs q) = (|q|, true) := by
  have hdvd := qScale_dvd hr
  have hMq := qM_cast hdvd
  by_cases hk0 : qScale q = 0
  · rw [showQAbs, if_pos hk0, List.append_nil]
    simp only [parseUQ]
    have hta := takeWhile_all (p := isDigitCh)
      (t := showNat (qM q / 10 ^ qScale q)) (showNat_all_digits _)
    rw [hta.1, hta.2]
    rw [if_neg (showNat_ne_nil _)]
    rw [parseNat_showNat]
    rw [hk0] at hMq ⊢
    simp only [pow_zero, mul_one] at hMq
    rw [show qM q / 10 ^ 0 = qM q by simp]
    rw [hMq]
  · have hkpos : 0 < qScale q := Nat.pos_of_ne_zero hk0
    have hfr : qM q % 10 ^ qScale q < 10 ^ qScale q :=
      Nat.mod_lt _ (Nat.pos_pow_of_pos _ (by norm_num))
    have hlen := padDigits_length hkpos hfr
    rw [showQAbs, if_neg hk0]
    have hsplit := @takeWhile_append_stop isDigitCh '.'
      (showNat (qM q / 10 ^ qScale q))
      (padDigits (qScale q) (qM q % 10 ^ qScale q))
      (showNat_all_digits _) (by decide)
    simp only [parseUQ]
    rw [hsplit.1, hsplit.2]
    rw [if_neg (showNat_ne_nil _)]
    dsimp only
    rw [if_pos rfl]
    rw [if_pos ⟨by
        intro hnil
        rw [hnil] at hlen
        simp at hlen
        omega,
      List.all_eq_true.mpr fun c hc => mem_padDigits hc⟩]
    rw [parseNat_showNat, parseNat_padDigits, hlen]
    rw [Prod.mk.injEq]
    refine ⟨?_, rfl⟩
    have h0 := Nat.div_add_mod (qM q) (10 ^ qScale q)
    have hdm : (10:ℚ) ^ qScale q * ((qM q / 10 ^ qScale q : ℕ) : ℚ) +
        ((qM q % 10 ^ qScale q : ℕ) : ℚ) = ((qM q : ℕ) : ℚ) := by
      exact_mod_cast congrArg (Nat.cast (R := ℚ)) h0
    have h10 : (10:ℚ) ^ qScale q ≠ 0 := by positivity
    field_simp
    linarith [hdm, hMq]

theorem showQAbs_ne_nil (q : ℚ) : showQAbs q ≠ [] := by
  rw [showQAbs]
  exact List.append_ne_nil_of_left_ne_nil (showNat_ne_nil _) _

theorem parseQQt_showQ {q : ℚ} (hr : q.den ∣ 10 ^ 64) :
    parseQQt (showQ q) = (q, true) := by
  by_cases hneg : q.num < 0
  · have hq : q < 0 := by
      by_contra hge
      have : 0 ≤ q.num := Rat.num_nonneg.mpr (by linarith [not_lt.mp hge])
      omega
    rw [showQ, if_pos hneg, List.singleton_append, parseQQt]
    rw [if_pos rfl]
    rw [parseUQ_showQAbs hr]
    rw [Prod.mk.injEq]
    exact ⟨by rw [abs_of_neg hq]; ring, rfl⟩
  · have hq : 0 ≤ q := Rat.num_nonneg.mp (by omega)
    rw [showQ, if_neg hneg, List.nil_append]
    cases hsn : showNat (qM q / 10 ^ qScale q) with
    | nil => exact absurd hsn (showNat_ne_nil _)
    | cons c0 r0 =>
      have hc0 : isDigitCh c0 = true := by
        apply showNat_all_digits (qM q / 10 ^ qScale q)
        rw [hsn]
        simp
      obtain ⟨hm, hp, _⟩ := digit_not_minus hc0
      have hshape : showQAbs q = c0 :: (r0 ++
          (if qScale q = 0 then [] else
            '.' :: padDigits (qScale q) (qM q % 10 ^ qScale q))) := by
        rw [showQAbs, hsn]
        simp
      rw [hshape, parseQQt, if_neg hm, if_neg hp, ← hshape,
        parseUQ_showQAbs hr, abs_of_nonneg hq]

/-! ### The rendered line matches the validation pattern -/

theorem rematch_congr {r : RE} {s t : Str} (h : REMatch r s) (e : s = t) :
    REMatch r t := e ▸ h

theorem rematch_optRE_nil (r : RE) : REMatch (optRE r) [] :=
  REMatch.altR REMatch.emptystr

theorem rematch_optRE_of (r : RE) {s : Str} (h : REMatch r s) :
    REMatch (optRE r) s := REMatch.altL h

theorem rematch_charRE (c : Char) : REMatch (charRE c) [c] :=
  REMatch.sym (by simp)

theorem rematch_star_sym {p : Char → Bool} :
    ∀ {s : Str}, (∀ c ∈ s, p c = true) → REMatch (.star (.sym p)) s := by
  intro s
  induction s with
  | nil => intro _; exact REMatch.starNil
  | cons c t ih =>
    intro h
    exact rematch_congr
      (REMatch.starCons (REMatch.sym (h c (by simp)))
        (ih fun c hc => h c (by simp [hc]))) rfl

theorem rematch_plus_sym {p : Char → Bool} {s : Str} (hne : s ≠ [])
    (h : ∀ c ∈ s, p c = true) : REMatch (.cat (.sym p) (.star (.sym p))) s := by
  cases s with
  | nil => exact absurd rfl hne
  | cons c t =>
    exact rematch_congr
      (REMatch.cat (REMatch.sym (h c (by simp)))
        (rematch_star_sym fun c hc => h c (by simp [hc]))) rfl

theorem rematch_number_of_parts {sign digits frac : Str}
    (hsign : sign = [] ∨ sign = ['-'])
    (hd : digits ≠ []) (hdc : ∀ c ∈ digits, isDigitCh c = true)
    (hfrac : frac = [] ∨
      ∃ fd, frac = '.' :: fd ∧ fd ≠ [] ∧ ∀ c ∈ fd, isDigitCh c = true) :
    REMatch numberRE (sign ++ digits ++ frac) := by
  have h1 : REMatch (optRE (charRE '-')) sign := by
    rcases hsign with rfl | rfl
    · exact rematch_optRE_nil _
    · exact rematch_optRE_of _ (rematch_charRE '-')
  have h2 : REMatch (plusRE digitRE) digits := rematch_plus_sym hd hdc
  have h3 : REMatch (optRE (.cat (charRE '.') (plusRE digitRE))) frac := by
    rcases hfrac with rfl | ⟨fd, rfl, hfd, hfdc⟩
    · exact rematch_optRE_nil _
    · exact rematch_optRE_of _
        (rematch_congr
          (REMatch.cat (rematch_charRE '.') (rematch_plus_sym hfd hfdc)) rfl)
  exact rematch_congr (REMatch.cat h1 (REMatch.cat h2 h3))
    (by rw [List.append_assoc])

theorem rematch_number_showInt (z : ℤ) : REMatch numberRE (showInt z) := by
  rw [showInt]
  have := @rematch_number_of_parts
    (if z < 0 then ['-'] else []) (showNat z.natAbs) []
    (by split <;> simp) (showNat_ne_nil _) (showNat_all_digits _)
    (Or.inl rfl)
  simpa using this

theorem rematch_number_showQ (q : ℚ) : REMatch numberRE (showQ q) := by
  rw [showQ, showQAbs]
  have := @rematch_number_of_parts
    (if q.num < 0 then ['-'] else [])
    (showNat (qM q / 10 ^ qScale q))
    (if qScale q = 0 then [] else
      '.' :: padDigits (qScale q) (qM q % 10 ^ qScale q))
    (by split <;> simp) (showNat_ne_nil _) (showNat_all_digits _)
    (by
      split
      · exact Or.inl rfl
      · refine Or.inr ⟨_, rfl, ?_, fun c hc => mem_padDigits hc⟩
        intro hnil
        have hkpos : 0 < qScale q := Nat.pos_of_ne_zero (by assumption)
        have hfr : qM q % 10 ^ qScale q < 10 ^ qScale q :=
          Nat.mod_lt _ (Nat.pos_pow_of_pos _ (by norm_num))
        have := padDigits_length hkpos hfr
        rw [hnil] at this
        simp at this
        omega)
  simpa [List.append_assoc] using this

theorem rematch_token_of_parts {sp nm num : Str}
    (hsp : sp = [] ∨ sp = [' '])
    (hnm : nm ≠ []) (hnmc : ∀ c ∈ nm, isJointTokenCh c = true)
    (hnum : REMatch numberRE num) :
    REMatch tokenRE (sp ++ nm ++ ':' :: num) := by
  have h1 : REMatch (optRE (.sym isSpaceCh)) sp := by
    rcases hsp with rfl | rfl
    · exact rematch_optRE_nil _
    · exact rematch_optRE_of _ (REMatch.sym (by decide))
  have h2 : REMatch (.cat (.sym isJointTokenCh) (.star (.sym isJointTokenCh)))
      nm := rematch_plus_sym hnm hnmc
  have h3 : REMatch (.cat (charRE ':') numberRE) (':' :: num) :=
    rematch_congr (REMatch.cat (rematch_charRE ':') hnum) rfl
  exact rematch_congr (REMatch.cat h1 (REMatch.cat h2 h3))
    (by rw [List.append_assoc])

theorem rematch_star_tokens :
    ∀ {toks : List Str}, (∀ t ∈ toks, REMatch tokenRE t) →
      REMatch (.star tokenRE) toks.flatten := by
  intro toks
  induction toks with
  | nil => intro _; exact REMatch.starNil
  | cons t ts ih =>
    intro h
    exact rematch_congr
      (REMatch.starCons (h t (by simp)) (ih fun t ht => h t (by simp [ht])))
      (by simp)

/-- A whole line built from token fragments followed by the newline
matches the validation pattern (exercising the star branch through the
joint-token group for every token and one outer repetition). -/
theorem rematch_line {toks : List Str} (h : ∀ t ∈ toks, REMatch tokenRE t) :
    REMatch keyframeLineRE (toks.flatten ++ [Char.ofNat 10]) := by
  have hinner : REMatch lineInnerRE (toks.flatten ++ [Char.ofNat 10]) := by
    have h4 : REMatch (.cat (.star tokenRE) (optRE (charRE (Char.ofNat 10))))
        (toks.flatten ++ [Char.ofNat 10]) :=
      REMatch.cat (rematch_star_tokens h)
        (rematch_optRE_of _ (rematch_charRE _))
    exact rematch_congr
      (REMatch.cat (rematch_optRE_nil _)
        (REMatch.cat (rematch_optRE_nil _)
          (REMatch.cat (rematch_optRE_nil _) h4))) (by simp)
  exact rematch_congr (REMatch.cat hinner REMatch.starNil) (by simp)

/-! ### `toString` and `fromString` -/

/-- The ` name:value` fragment appended per joint by `Keyframe::toString`
(Keyframe.cpp:388-393). -/
def jointToken (nv : String × ℚ) : Str :=
  ' ' :: (nv.1.data ++ ':' :: showQ nv.2)

/-- `Keyframe::toString` (Keyframe.cpp:380-398): `"speed:" + number`,
`" pause:" + number`, `" output:" + currentIndex`, one ` name:value`
per joint, and a final newline. -/
def toStringKF (kf : AuthKeyframe ℚ) : Str :=
  ("speed:".data ++ showInt kf.speed) ++
    (' ' :: ("pause:".data ++ showQ kf.pause)) ++
    (' ' :: ("output:".data ++ showInt kf.outputCommand)) ++
    kf.jointAngles.flatMap jointToken ++ [Char.ofNat 10]

/-- `keyframeString.truncate(keyframeString.indexOf("\n"))` guarded by
`contains` (Keyframe.cpp:412-413). -/
def truncAtNewline (s : Str) : Str :=
  if s.contains (Char.ofNat 10) then s.takeWhile (fun c => c ≠ Char.ofNat 10)
  else s

/-- `QString::split(QRegExp("\s"), SkipEmptyParts)`: split at each
whitespace character, dropping empty parts (Keyframe.cpp:416). -/
def splitWsAcc (cur : Str) : Str → List Str
  | [] => if cur = [] then [] else [cur]
  | c :: rest =>
    if isSpaceCh c then
      if cur = [] then splitWsAcc [] rest else cur :: splitWsAcc [] rest
    else splitWsAcc (cur ++ [c]) rest

def splitWs (s : Str) : List Str := splitWsAcc [] s

/-- `QString::split(":")` (keeping empty parts, Qt's default)
(Keyframe.cpp:423). -/
def splitChAcc (sep : Char) (cur : Str) : Str → List Str
  | [] => [cur]
  | c :: rest =>
    if c = sep then cur :: splitChAcc sep [] rest
    else splitChAcc sep (cur ++ [c]) rest

def splitColon (s : Str) : List Str := splitChAcc ':' [] s

/-- `QHash::operator[] =` on the joint-angle map: replace the value of an
existing key or append a new binding. -/
def updateAngles (l : List (String × ℚ)) (k : String) (v : ℚ) :
    List (String × ℚ) :=
  if l.any (fun nv => nv.1 = k) then
    l.map fun nv => if nv.1 = k then (k, v) else nv
  else l ++ [(k, v)]

/-- One iteration of the token loop of `Keyframe::fromString`
(Keyframe.cpp:421-440).  `setSpeed` stores the raw parsed int
(Keyframe.cpp:213-219; the spin box clamps only its display);
`setOutputCommand` drives `QComboBox::setCurrentIndex`, which keeps
indices 0..2 and turns anything else into -1. -/
def fromStringStep (kf : AuthKeyframe ℚ) (part : Str) : AuthKeyframe ℚ :=
  let bits := splitColon part
  let b0 := bits.getD 0 []
  let b1 := bits.getD 1 []
  if b0 = "speed".data then { kf with speed := (parseIntQt b1).1 }
  else if b0 = "pause".data then { kf with pause := (parseQQt b1).1 }
  else if b0 = "output".data then
    { kf with outputCommand :=
        if 0 ≤ (parseIntQt b1).1 ∧ (parseIntQt b1).1 < 3 then (parseIntQt b1).1
        else -1 }
  else
    { kf with jointAngles := updateAngles kf.jointAngles ⟨b0⟩ (parseQQt b1).1 }

/-- `Keyframe::fromString` (Keyframe.cpp:405-443): do nothing unless the
string validates; otherwise truncate at the first newline, split on
whitespace and fold the token handler over the parts. -/
def fromString (kf : AuthKeyframe ℚ) (s : Str) : AuthKeyframe ℚ :=
  if validateString s then (splitWs (truncAtNewline s)).foldl fromStringStep kf
  else kf

/-- The data of a freshly constructed `Keyframe` (Keyframe.cpp:60-64,
digital-output combo box at index 0), as `loadFromFile` creates before
calling `fromString`. -/
def defaultKF : AuthKeyframe ℚ :=
  { jointAngles := [], speed := 50, pause := 0, outputCommand := 0 }

/-! ### Decomposing the rendered line into its tokens -/

/-- The tokens of the rendered line without the separating spaces —
what `split(QRegExp("\s"), SkipEmptyParts)` recovers. -/
def coreTokens (kf : AuthKeyframe ℚ) : List Str :=
  ("speed:".data ++ showInt kf.speed) ::
    ("pause:".data ++ showQ kf.pause) ::
    ("output:".data ++ showInt kf.outputCommand) ::
    kf.jointAngles.map fun nv => nv.1.data ++ ':' :: showQ nv.2

/-- Concatenation with a single separating space between tokens. -/
def spacedConcat : List Str → Str
  | [] => []
  | t :: ts => t ++ ts.flatMap fun t2 => ' ' :: t2

theorem toStringKF_eq_spaced (kf : AuthKeyframe ℚ) :
    toStringKF kf = spacedConcat (coreTokens kf) ++ [Char.ofNat 10] := by
  rw [toStringKF, coreTokens, spacedConcat]
  simp only [List.flatMap_cons]
  have hjoints : (kf.jointAngles.map fun nv => nv.1.data ++ ':' :: showQ nv.2).flatMap
        (fun t2 => ' ' :: t2) =
      kf.jointAngles.flatMap jointToken := by
    induction kf.jointAngles with
    | nil => rfl
    | cons nv tl ih =>
      simp only [List.map_cons, List.flatMap_cons, ih, jointToken]
  rw [hjoints]
  simp [List.append_assoc]

/-! ### Well-formedness hypotheses for the round trip -/

/-- A joint name that the line format can carry faithfully: nonempty,
drawn from the `[\w()]` class that the configuration loader enforces
(JointConfiguration.cpp:29), and not one of the metadata keys that
`fromString` treats specially. -/
def goodName (nm : String) : Prop :=
  nm.data ≠ [] ∧ (∀ c ∈ nm.data, isJointTokenCh c = true) ∧
    nm ≠ "speed" ∧ nm ≠ "pause" ∧ nm ≠ "output"

/-- A keyframe the text format carries faithfully: output command a
valid combo-box index, pause and angles in the `renderable` domain
where `QString::number` prints the exact plain decimal, joint names
good and distinct. -/
def goodKF (kf : AuthKeyframe ℚ) : Prop :=
  (0 ≤ kf.outputCommand ∧ kf.outputCommand < 3) ∧
    renderable kf.pause ∧
    (∀ nv ∈ kf.jointAngles, goodName nv.1 ∧ renderable nv.2) ∧
    (kf.jointAngles.map Prod.fst).Nodup

/-- Characters of core tokens: never whitespace, never a newline. -/
theorem coreTokens_wf {kf : AuthKeyframe ℚ} (h : goodKF kf) :
    ∀ t ∈ coreTokens kf, t ≠ [] ∧
      ∀ c ∈ t, isSpaceCh c = false ∧ c ≠ Char.ofNat 10 := by
  have hnum : ∀ {c : Char}, isNumCh c = true →
      isSpaceCh c = false ∧ c ≠ Char.ofNat 10 :=
    fun hc => ⟨(numCh_facts hc).1, (numCh_facts hc).2.2⟩
  intro t ht
  rw [coreTokens] at ht
  simp only [List.mem_cons, List.mem_map] at ht
  rcases ht with rfl | rfl | rfl | ⟨nv, hnv, rfl⟩
  · refine ⟨by simp, fun c hc => ?_⟩
    rw [List.mem_append] at hc
    rcases hc with hc | hc
    · revert hc
      revert c
      decide
    · exact hnum (mem_showInt hc)
  · refine ⟨by simp, fun c hc => ?_⟩
    rw [List.mem_append] at hc
    rcases hc with hc | hc
    · revert hc
      revert c
      decide
    · exact hnum (mem_showQ hc)
  · refine ⟨by simp, fun c hc => ?_⟩
    rw [List.mem_append] at hc
    rcases hc with hc | hc
    · revert hc
      revert c
      decide
    · exact hnum (mem_showInt hc)
  · obtain ⟨⟨hne, hcls, _⟩, _⟩ := h.2.2.1 nv hnv
    refine ⟨by simp [hne], fun c hc => ?_⟩
    rw [List.mem_append] at hc
    rcases hc with hc | hc
    · exact ⟨(jointTokenCh_facts (hcls c hc)).1,
        (jointTokenCh_facts (hcls c hc)).2.2⟩
    · simp only [List.mem_cons] at hc
      rcases hc with rfl | hc
      · exact ⟨by decide, by decide⟩
      · exact hnum (mem_showQ hc)

theorem mem_flatMap_space {c : Char} :
    ∀ {ts : List Str}, c ∈ (ts.flatMap fun t2 => ' ' :: t2) →
      c = ' ' ∨ ∃ t ∈ ts, c ∈ t := by
  intro ts
  induction ts with
  | nil => intro hc; simp at hc
  | cons t2 ts2 ih =>
    intro hc
    rw [List.flatMap_cons, List.mem_append] at hc
    rcases hc with hc | hc
    · simp only [List.mem_cons] at hc
      rcases hc with rfl | hc
      · exact Or.inl rfl
      · exact Or.inr ⟨t2, by simp, hc⟩
    · rcases ih hc with h1 | ⟨t3, ht3, hc3⟩
      · exact Or.inl h1
      · exact Or.inr ⟨t3, by simp [ht3], hc3⟩

theorem mem_spacedConcat {c : Char} {toks : List Str}
    (hc : c ∈ spacedConcat toks) : c = ' ' ∨ ∃ t ∈ toks, c ∈ t := by
  cases toks with
  | nil => simp [spacedConcat] at hc
  | cons t ts =>
    rw [spacedConcat, List.mem_append] at hc
    rcases hc with hc | hc
    · exact Or.inr ⟨t, by simp, hc⟩
    · rcases mem_flatMap_space hc with h1 | ⟨t3, ht3, hc3⟩
      · exact Or.inl h1
      · exact Or.inr ⟨t3, by simp [ht3], hc3⟩

theorem truncAtNewline_append_nl {body : Str}
    (h : ∀ c ∈ body, c ≠ Char.ofNat 10) :
    truncAtNewline (body ++ [Char.ofNat 10]) = body := by
  rw [truncAtNewline, if_pos (by simp)]
  have := @takeWhile_append_stop (fun c => decide (c ≠ Char.ofNat 10))
    (Char.ofNat 10) body []
    (fun c hc => by simp [h c hc]) (by simp)
  simpa using this.1

/-! ### Splitting the rendered line back into tokens -/

theorem splitWsAcc_append_nospace :
    ∀ {t : Str}, (∀ c ∈ t, isSpaceCh c = false) →
      ∀ (cur rest : Str),
        splitWsAcc cur (t ++ rest) = splitWsAcc (cur ++ t) rest := by
  intro t
  induction t with
  | nil =>
    intro _ cur rest
    rw [List.nil_append, List.append_nil]
  | cons c t' ih =>
    intro h cur rest
    have hc : isSpaceCh c = false := h c (by simp)
    have ht' : ∀ c2 ∈ t', isSpaceCh c2 = false :=
      fun c2 hc2 => h c2 (by simp [hc2])
    rw [List.cons_append]
    simp only [splitWsAcc, hc, Bool.false_eq_true, if_false]
    rw [ih ht' (cur ++ [c]) rest, List.append_assoc]
    rfl

theorem splitWsAcc_cur_flatMap :
    ∀ {ts : List Str}, (∀ t ∈ ts, t ≠ [] ∧ ∀ c ∈ t, isSpaceCh c = false) →
      ∀ {cur : Str}, cur ≠ [] →
        splitWsAcc cur (ts.flatMap fun t => ' ' :: t) = cur :: ts := by
  intro ts
  induction ts with
  | nil =>
    intro _ cur hcur
    simp only [List.flatMap_nil, splitWsAcc]
    rw [if_neg hcur]
  | cons t ts' ih =>
    intro h cur hcur
    have ht := h t (by simp)
    have hts' : ∀ t2 ∈ ts', t2 ≠ [] ∧ ∀ c ∈ t2, isSpaceCh c = false :=
      fun t2 ht2 => h t2 (by simp [ht2])
    rw [List.flatMap_cons, List.cons_append]
    simp only [splitWsAcc]
    rw [if_pos (by decide), if_neg hcur,
      splitWsAcc_append_nospace ht.2 [] (ts'.flatMap fun t2 => ' ' :: t2),
      List.nil_append, ih hts' ht.1]

theorem splitWs_spacedConcat {ts : List Str}
    (h : ∀ t ∈ ts, t ≠ [] ∧ ∀ c ∈ t, isSpaceCh c = false) :
    splitWs (spacedConcat ts) = ts := by
  cases ts with
  | nil => rfl
  | cons t ts' =>
    have ht := h t (by simp)
    have hts' : ∀ t2 ∈ ts', t2 ≠ [] ∧ ∀ c ∈ t2, isSpaceCh c = false :=
      fun t2 ht2 => h t2 (by simp [ht2])
    rw [splitWs, spacedConcat,
      splitWsAcc_append_nospace ht.2 [] (ts'.flatMap fun t2 => ' ' :: t2),
      List.nil_append, splitWsAcc_cur_flatMap hts' ht.1]

theorem splitChAcc_append_nosep {sep : Char} :
    ∀ {t : Str}, (∀ c ∈ t, c ≠ sep) →
      ∀ (cur rest : Str),
        splitChAcc sep cur (t ++ rest) = splitChAcc sep (cur ++ t) rest := by
  intro t
  induction t with
  | nil =>
    intro _ cur rest
    rw [List.nil_append, List.append_nil]
  | cons c t' ih =>
    intro h cur rest
    have hc : c ≠ sep := h c (by simp)
    have ht' : ∀ c2 ∈ t', c2 ≠ sep := fun c2 hc2 => h c2 (by simp [hc2])
    rw [List.cons_append]
    simp only [splitChAcc]
    rw [if_neg hc, ih ht' (cur ++ [c]) rest, List.append_assoc]
    rfl

theorem splitChAcc_nosep {sep : Char} {t : Str} (h : ∀ c ∈ t, c ≠ sep)
    (cur : Str) : splitChAcc sep cur t = [cur ++ t] := by
  have h2 := splitChAcc_append_nosep h cur []
  rw [List.append_nil] at h2
  rw [h2]
  rfl

theorem splitColon_pair {a b : Str} (ha : ∀ c ∈ a, c ≠ ':')
    (hb : ∀ c ∈ b, c ≠ ':') : splitColon (a ++ ':' :: b) = [a, b] := by
  rw [splitColon, splitChAcc_append_nosep ha [] (':' :: b), List.nil_append]
  simp only [splitChAcc]
  rw [if_pos trivial, splitChAcc_nosep hb []]
  rfl

/-! ### The token loop on rendered tokens -/

theorem showInt_no_colon {z : ℤ} : ∀ c ∈ showInt z, c ≠ ':' :=
  fun _ hc => (numCh_facts (mem_showInt hc)).2.1

theorem showQ_no_colon {q : ℚ} : ∀ c ∈ showQ q, c ≠ ':' :=
  fun _ hc => (numCh_facts (mem_showQ hc)).2.1

theorem updateAngles_not_mem {l : List (String × ℚ)} {k : String} {v : ℚ}
    (h : ∀ nv ∈ l, nv.1 ≠ k) : updateAngles l k v = l ++ [(k, v)] := by
  have hn : ¬ ((l.any fun nv => nv.1 = k) = true) := by
    intro hex
    rw [List.any_eq_true] at hex
    obtain ⟨nv, hnv, he⟩ := hex
    exact h nv hnv (of_decide_eq_true he)
  rw [updateAngles, if_neg hn]

theorem step_speed (kf : AuthKeyframe ℚ) (z : ℤ) :
    fromStringStep kf ("speed:".data ++ showInt z) = { kf with speed := z } := by
  have he : ("speed:".data ++ showInt z : Str) =
      "speed".data ++ ':' :: showInt z := by
    rw [show ("speed:".data : Str) = "speed".data ++ [':'] from by decide,
      List.append_assoc]
    rfl
  rw [he]
  simp only [fromStringStep]
  rw [splitColon_pair (by decide) showInt_no_colon]
  simp only [List.getD_cons_zero, List.getD_cons_succ]
  rw [if_pos trivial, parseIntQt_showInt]

theorem step_pause (kf : AuthKeyframe ℚ) {q : ℚ} (hq : q.den ∣ 10 ^ 64) :
    fromStringStep kf ("pause:".data ++ showQ q) = { kf with pause := q } := by
  have he : ("pause:".data ++ showQ q : Str) =
      "pause".data ++ ':' :: showQ q := by
    rw [show ("pause:".data : Str) = "pause".data ++ [':'] from by decide,
      List.append_assoc]
    rfl
  rw [he]
  simp only [fromStringStep]
  rw [splitColon_pair (by decide) showQ_no_colon]
  simp only [List.getD_cons_zero, List.getD_cons_succ]
  rw [if_neg (by decide), if_pos trivial, parseQQt_showQ hq]

theorem step_output (kf : AuthKeyframe ℚ) {z : ℤ} (h0 : 0 ≤ z) (h3 : z < 3) :
    fromStringStep kf ("output:".data ++ showInt z) =
      { kf with outputCommand := z } := by
  have he : ("output:".data ++ showInt z : Str) =
      "output".data ++ ':' :: showInt z := by
    rw [show ("output:".data : Str) = "output".data ++ [':'] from by decide,
      List.append_assoc]
    rfl
  rw [he]
  simp only [fromStringStep]
  rw [splitColon_pair (by decide) showInt_no_colon]
  simp only [List.getD_cons_zero, List.getD_cons_succ]
  rw [if_neg (by decide), if_neg (by decide), if_pos trivial, parseIntQt_showInt,
    if_pos ⟨h0, h3⟩]

theorem step_joint (kf : AuthKeyframe ℚ) {nm : String} {v : ℚ}
    (hn : goodName nm) (hv : v.den ∣ 10 ^ 64) :
    fromStringStep kf (nm.data ++ ':' :: showQ v) =
      { kf with jointAngles := updateAngles kf.jointAngles nm v } := by
  obtain ⟨hne, hcls, hs, hp, ho⟩ := hn
  have hnocolon : ∀ c ∈ nm.data, c ≠ ':' :=
    fun c hc => (jointTokenCh_facts (hcls c hc)).2.1
  simp only [fromStringStep]
  rw [splitColon_pair hnocolon showQ_no_colon]
  simp only [List.getD_cons_zero, List.getD_cons_succ]
  rw [if_neg (fun h2 => hs (congrArg String.mk h2)),
    if_neg (fun h2 => hp (congrArg String.mk h2)),
    if_neg (fun h2 => ho (congrArg String.mk h2)),
    parseQQt_showQ hv]

theorem fold_joint_tokens :
    ∀ {l : List (String × ℚ)} (acc : AuthKeyframe ℚ),
      (∀ nv ∈ l, goodName nv.1 ∧ renderable nv.2) →
      ((acc.jointAngles ++ l).map Prod.fst).Nodup →
      (l.map fun nv => nv.1.data ++ ':' :: showQ nv.2).foldl fromStringStep acc =
        { acc with jointAngles := acc.jointAngles ++ l } := by
  intro l
  induction l with
  | nil =>
    intro acc _ _
    rw [List.map_nil, List.foldl_nil, List.append_nil]
  | cons nv l' ih =>
    intro acc h hnd
    have hnv := h nv (by simp)
    have hl' : ∀ nv2 ∈ l', goodName nv2.1 ∧ renderable nv2.2 :=
      fun nv2 h2 => h nv2 (by simp [h2])
    have hnotmem : ∀ x ∈ acc.jointAngles, x.1 ≠ nv.1 := by
      intro x hx heq
      have hdis := List.disjoint_of_nodup_append (by
        rw [← List.map_append]
        exact hnd)
      exact hdis (List.mem_map_of_mem Prod.fst hx) (by simp [heq])
    rw [List.map_cons, List.foldl_cons,
      step_joint acc hnv.1 (renderable_dvd64 hnv.2),
      updateAngles_not_mem hnotmem]
    have hstep := ih { acc with jointAngles := acc.jointAngles ++ [(nv.1, nv.2)] }
      hl' (by
        show (((acc.jointAngles ++ [(nv.1, nv.2)]) ++ l').map Prod.fst).Nodup
        rw [List.append_assoc]
        exact hnd)
    rw [hstep]
    simp [List.append_assoc]

/-! ### The rendered line validates -/

theorem flatten_map_tok (f : (String × ℚ) → Str) :
    ∀ l : List (String × ℚ), (l.map f).flatten = l.flatMap f := by
  intro l
  induction l with
  | nil => rfl
  | cons nv l' ih => rw [List.map_cons, List.flatten_cons, List.flatMap_cons, ih]

theorem validate_toStringKF {kf : AuthKeyframe ℚ} (h : goodKF kf) :
    validateString (toStringKF kf) = true := by
  have hflat : toStringKF kf =
      ((("speed:".data ++ showInt kf.speed) ::
        (' ' :: ("pause:".data ++ showQ kf.pause)) ::
        (' ' :: ("output:".data ++ showInt kf.outputCommand)) ::
        kf.jointAngles.map jointToken).flatten) ++ [Char.ofNat 10] := by
    rw [toStringKF]
    simp [List.flatten_cons, flatten_map_tok, List.append_assoc]
  have htoks : ∀ t ∈ (("speed:".data ++ showInt kf.speed) ::
      (' ' :: ("pause:".data ++ showQ kf.pause)) ::
      (' ' :: ("output:".data ++ showInt kf.outputCommand)) ::
      kf.jointAngles.map jointToken), REMatch tokenRE t := by
    intro t ht
    simp only [List.mem_cons, List.mem_map] at ht
    rcases ht with rfl | rfl | rfl | ⟨nv, hnv, rfl⟩
    · exact rematch_congr
        (@rematch_token_of_parts [] "speed".data (showInt kf.speed)
          (Or.inl rfl) (by decide) (by decide)
          (rematch_number_showInt kf.speed))
        (by simp [List.append_assoc])
    · exact rematch_congr
        (@rematch_token_of_parts [' '] "pause".data (showQ kf.pause)
          (Or.inr rfl) (by decide) (by decide)
          (rematch_number_showQ kf.pause))
        (by simp [List.append_assoc])
    · exact rematch_congr
        (@rematch_token_of_parts [' '] "output".data (showInt kf.outputCommand)
          (Or.inr rfl) (by decide) (by decide)
          (rematch_number_showInt kf.outputCommand))
        (by simp [List.append_assoc])
    · obtain ⟨⟨hne, hcls, _, _, _⟩, _⟩ := h.2.2.1 nv hnv
      exact rematch_congr
        (@rematch_token_of_parts [' '] nv.1.data (showQ nv.2)
          (Or.inr rfl) hne hcls (rematch_number_showQ nv.2))
        (by simp [jointToken, List.append_assoc])
  rw [validateString, hflat]
  exact RE.matches_of_REMatch (rematch_line htoks)

/-! ### The round trip on well-formed keyframes -/

theorem fromString_toStringKF {kf : AuthKeyframe ℚ} (h : goodKF kf) :
    fromString defaultKF (toStringKF kf) = kf := by
  rw [fromString, if_pos (validate_toStringKF h)]
  have hwf := coreTokens_wf h
  have hnl : ∀ c ∈ spacedConcat (coreTokens kf), c ≠ Char.ofNat 10 := by
    intro c hc
    rcases mem_spacedConcat hc with rfl | ⟨t, ht, hct⟩
    · decide
    · exact ((hwf t ht).2 c hct).2
  rw [toStringKF_eq_spaced, truncAtNewline_append_nl hnl,
    splitWs_spacedConcat fun t ht =>
      ⟨(hwf t ht).1, fun c hc => ((hwf t ht).2 c hc).1⟩]
  have hacc : List.foldl fromStringStep defaultKF (coreTokens kf) =
      List.foldl fromStringStep
        { jointAngles := [], speed := kf.speed, pause := kf.pause,
          outputCommand := kf.outputCommand }
        (kf.jointAngles.map fun nv => nv.1.data ++ ':' :: showQ nv.2) := by
    rw [coreTokens, List.foldl_cons, step_speed, List.foldl_cons,
      step_pause _ (renderable_dvd64 h.2.1), List.foldl_cons,
      step_output _ h.1.1 h.1.2]
    rfl
  rw [hacc, fold_joint_tokens
    { jointAngles := [], speed := kf.speed, pause := kf.pause,
      outputCommand := kf.outputCommand }
    (fun nv hnv => h.2.2.1 nv hnv) (by simpa using h.2.2.2)]
  rfl

/-- C8 (counterexample): the claim admits every joint name matching
`[A-Za-z0-9_()]+`, but `speed` is such a name and collides with the
metadata key: a keyframe with a joint named `speed` at angle 1 validates
and parses, yet the parsed keyframe has speed 1 and no joints at all, so
the round trip does not reproduce it. -/
theorem c8_reserved_joint_name_counterexample :
    (∀ c ∈ ("speed".data : Str), isJointTokenCh c = true) ∧
    (fromString defaultKF (toStringKF
        { jointAngles := [("speed", 1)], speed := 50, pause := 0,
          outputCommand := 0 })).speed = 1 ∧
    (fromString defaultKF (toStringKF
        { jointAngles := [("speed", 1)], speed := 50, pause := 0,
          outputCommand := 0 })).jointAngles = [] ∧
    fromString defaultKF (toStringKF
        { jointAngles := [("speed", 1)], speed := 50, pause := 0,
          outputCommand := 0 }) ≠
      { jointAngles := [("speed", 1)], speed := 50, pause := 0,
        outputCommand := 0 } :=
  ⟨by decide, by decide, by decide,
    fun heq => absurd (congrArg AuthKeyframe.speed heq) (by decide)⟩

/-- C8 (amended): for every sequence of keyframes whose joint names are
nonempty words over `[A-Za-z0-9_()]` distinct from the metadata keys
`speed`, `pause` and `output`, pairwise distinct within a frame, whose
output command is a valid combo-box index 0..2 and whose pause and
joint angles are integer multiples of 0.001 below 1000 in magnitude —
the domain on which `QString::number`'s default 6-significant-digit
`g` rendering is exact and in plain decimal (see `renderable`) —
serialising each keyframe with `toString` and parsing the lines back
with `fromString` (which first validates with `validateString`)
reproduces the original sequence. -/
theorem c8_serialise_parse_roundtrip_amended {kfs : List (AuthKeyframe ℚ)}
    (h : ∀ kf ∈ kfs, goodKF kf) :
    kfs.map (fun kf => fromString defaultKF (toStringKF kf)) = kfs := by
  have hone : ∀ kf ∈ kfs, fromString defaultKF (toStringKF kf) = kf :=
    fun kf hkf => fromString_toStringKF (h kf hkf)
  calc kfs.map (fun kf => fromString defaultKF (toStringKF kf))
      = kfs.map id := List.map_congr_left hone
    _ = kfs := List.map_id kfs

theorem c8_serialise_parse_roundtrip_amended_witness :
    (∀ kf ∈ [({ jointAngles := [("joint1", 1)], speed := 50, pause := 0, outputCommand := 0 } : AuthKeyframe ℚ)], goodKF kf) ∧
    [({ jointAngles := [("joint1", 1)], speed := 50, pause := 0, outputCommand := 0 } : AuthKeyframe ℚ)].map
        (fun kf => fromString defaultKF (toStringKF kf)) =
      [({ jointAngles := [("joint1", 1)], speed := 50, pause := 0, outputCommand := 0 } : AuthKeyframe ℚ)] :=
  ⟨by
    intro kf hkf
    rw [List.mem_singleton] at hkf
    subst hkf
    unfold goodKF goodName renderable
    decide,
  c8_serialise_parse_roundtrip_amended (by
    intro kf hkf
    rw [List.mem_singleton] at hkf
    subst hkf
    unfold goodKF goodName renderable
    decide)⟩

end IgusME
